import Mathlib

/-!
Verification development for the lofasm `data_file_info` module
(class `LofasmFileInfo` in `lofasm/data_file_info/data_file_info.py`).

The Python code is shallowly embedded as executable Lean functions.
Filesystem state (directory listings, subdirectory listings) is passed
explicitly through a `Dir` value; the persisted-catalog storage is an
association list from file names to tables; effects of `add_columns`
(file handles opened and closed, warnings emitted) are returned as
explicit traces; an uncaught Python exception is modelled by the
`table := none` outcome of the corresponding step.

The format classes (`DataFormat._format_list`) and the collector registry
(`InfoCollector._info_name_list`) are not part of the source file; they
are modelled from the spec as opaque capabilities (see `DataFormat` and
`InfoCollector` below).
-/

set_option maxRecDepth 8000

namespace Lofasm

abbrev FileName := String
abbrev FormatTag := String
abbrev ColName := String

/-- A table cell: either a value (modelled as a string) or a null
(`None` / masked entry). -/
abbrev Cell := Option String

/-- Suffix test on strings, mirroring Python `str.endswith`. -/
def endsWithS (s suf : String) : Bool := suf.data.isSuffixOf s.data

/-- Outcome of invoking a collector method on an open file handle:
a produced value, a raised `NotImplementedError` (the benign signal the
source swallows), or any other uncaught exception. -/
inductive CollectOut where
  | val : String → CollectOut
  | notImpl : CollectOut
  | err : CollectOut
deriving DecidableEq

/-- Modelled from the spec: a registered format class (the concrete
format parsers of `lofasm.formats` are external collaborators).  It can
test whether a path matches the format (`is_format`) and open a
format-specific handle (`instantiate_format_cls`); `openOk` tells
whether opening the given path succeeds (a missing or unreadable source
file makes it fail, which in Python raises an exception). -/
structure DataFormat where
  is_format : FileName → Bool
  openOk : FileName → Bool

/-- Modelled from the spec: a column information collector
(`InfoCollector._info_name_list` lives outside the source file).  Its
`collect_method`, keyed by format tag, applied to the opened handle of a
file, yields a `CollectOut`. -/
structure InfoCollector where
  collect : FormatTag → FileName → CollectOut

/-- The two pluggable registries, in registration order. -/
structure Env where
  formats : List (FormatTag × DataFormat)
  collectors : List (ColName × InfoCollector)

/-- The directory being catalogued: its listing, which entries are
subdirectories, and each subdirectory's own listing. -/
structure Dir where
  listing : List FileName
  isDir : FileName → Bool
  sub : FileName → List FileName

/-- The astropy table of the source, reduced to what the module uses:
ordered column names, ordered rows (each row positionally aligned with
`cols`), and the metadata the module reads and writes. -/
structure Table where
  cols : List ColName
  rows : List (List Cell)
  haschild : Bool
  tname : String
deriving DecidableEq

/-- Well-formedness: every row has one cell per column. -/
def TableWF (t : Table) : Prop := ∀ r ∈ t.rows, r.length = t.cols.length

instance (t : Table) : Decidable (TableWF t) := by
  unfold TableWF; infer_instance

/-- Index of the first column with the given name (astropy column lookup). -/
def idxOf? (c : ColName) : List ColName → Option Nat
  | [] => none
  | c' :: rest => if c' == c then some 0 else (idxOf? c rest).map (· + 1)

/-- The cells of the named column, top to bottom ([] if the column is
absent). -/
def colCells (t : Table) (c : ColName) : List Cell :=
  match idxOf? c t.cols with
  | some i => t.rows.map (fun r => r.getD i none)
  | none => []

/-- The `filename` column of a table. -/
def filenameCells (t : Table) : List Cell := colCells t "filename"

def cellStr (c : Cell) : String := c.getD ""

/-- The `(filename, fileformat)` pairs the row loop of `add_columns`
iterates over (`zip(target_table['filename'], target_table['fileformat'])`). -/
def fileFmtPairs (t : Table) : List (FileName × FormatTag) :=
  match idxOf? "filename" t.cols, idxOf? "fileformat" t.cols with
  | some i, some j => t.rows.map (fun r => (cellStr (r.getD i none), cellStr (r.getD j none)))
  | _, _ => []

/-- First format in registration order whose `is_format` accepts the
path: the inner loop of `check_file_format`. -/
def matchFmt : List (FormatTag × DataFormat) → FileName → Option FormatTag
  | [], _ => none
  | (k, df) :: rest, fn => if df.is_format fn then some k else matchFmt rest fn

/-- `self.formats[fmt]` dictionary lookup. -/
def lookupFmt : List (FormatTag × DataFormat) → FormatTag → Option DataFormat
  | [], _ => none
  | (k, df) :: rest, t => if k == t then some df else lookupFmt rest t

/-- The entries of `file_format['info']`: names carrying the catalog
suffix (`fn.endswith('.info')`). -/
def infoCandidates (d : Dir) : List FileName :=
  d.listing.filter (fun fn => endsWithS fn ".info")

/-- The entries of `file_format['data_dir']` before pruning: every
listing entry that is a directory. -/
def dataDirs0 (d : Dir) : List FileName := d.listing.filter d.isDir

/-- Does subdirectory `s` itself contain a catalog file
(`any(ff.endswith('.info') for ff in fs)`)? -/
def hasChildInfo (d : Dir) (s : FileName) : Bool :=
  (d.sub s).any (fun fn => endsWithS fn ".info")

/-- One pass of Python
`for d in lst: if keep d: continue else: lst.remove(d)` over a list that
is mutated while being iterated.  The iterator holds an index into the
current list; `remove` deletes the first occurrence of the yielded
element, after which the iterator's next index skips over the element
that slid into the removed slot.  `fuel` bounds the loop (the real loop
stops once the index reaches the shrinking length). -/
def pyFilterGo (keep : FileName → Bool) : Nat → Nat → List FileName → List FileName
  | 0, _, l => l
  | fuel + 1, i, l =>
    if h : i < l.length then
      if keep (l.get ⟨i, h⟩) then pyFilterGo keep fuel (i + 1) l
      else pyFilterGo keep fuel (i + 1) (l.erase (l.get ⟨i, h⟩))
    else l

def pyFilterRemove (keep : FileName → Bool) (l : List FileName) : List FileName :=
  pyFilterGo keep l.length 0 l

/-- `self.files['data_dir']` after the pruning loop at the top of
`setup_info_table`. -/
def prunedDirs (d : Dir) : List FileName :=
  pyFilterRemove (hasChildInfo d) (dataDirs0 d)

/-- The files of the listing categorised under format `k` by
`check_file_format`: not a directory, and `k` is the first matching
format. -/
def fmtFiles (allF : List (FormatTag × DataFormat)) (d : Dir) (k : FormatTag) : List FileName :=
  d.listing.filter (fun fn => !d.isDir fn && (matchFmt allF fn == some k))

/-- The `(filename, format)` pairs contributed by the per-format file
lists, in registry order (the iteration order of the `file_format`
dictionary after the fixed keys). -/
def fmtSection (allF : List (FormatTag × DataFormat)) (d : Dir) :
    List (FormatTag × DataFormat) → List (FileName × FormatTag)
  | [] => []
  | (k, _) :: rest => (fmtFiles allF d k).map (fun fn => (fn, k)) ++ fmtSection allF d rest

/-- `get_format_map` as run inside `setup_info_table` (after the
`data_dir` pruning): every non-`info` category contributes its files,
directories under the distinguished tag `data_dir`. -/
def formatMapPairs (env : Env) (d : Dir) : List (FileName × FormatTag) :=
  (prunedDirs d).map (fun s => (s, "data_dir")) ++ fmtSection env.formats d env.formats

/-- `format_map[f]` dictionary lookup. -/
def lookupTag : List (FileName × FormatTag) → FileName → FormatTag
  | [], _ => ""
  | (fn, k) :: rest, f => if fn == f then k else lookupTag rest f

/-- Python-dict key set in insertion order: later occurrences of a key
already seen are dropped. -/
def dedupGo (seen : List ColName) : List ColName → List ColName
  | [] => []
  | c :: rest => if seen.contains c then dedupGo seen rest else c :: dedupGo (c :: seen) rest

/-- Association lookup in the collector registry
(`InfoCollector._info_name_list`). -/
def lookupColl : List (ColName × InfoCollector) → ColName → Option InfoCollector
  | [], _ => none
  | (n, c) :: rest, cn => if n == cn then some c else lookupColl rest cn

/-- `get_col_collector`: of the requested column names (dictionary keys,
hence deduplicated in first-occurrence order), those present in the
registry, paired with their collector. -/
def get_col_collector (registry : List (ColName × InfoCollector)) (cols : List ColName) :
    List (ColName × InfoCollector) :=
  (dedupGo [] cols).filterMap (fun cn => (lookupColl registry cn).map (fun c => (cn, c)))

/-- Result of one collector invocation as recorded by the source:
a produced value, or null when `NotImplementedError` was raised.
(The `err` case never reaches a cell: the exception propagates.) -/
def cellOf (c : InfoCollector) (fmt : FormatTag) (fn : FileName) : Cell :=
  match c.collect fmt fn with
  | .val v => some v
  | _ => none

/-- The inner collector loop of `add_columns` for one opened file:
`none` means an uncaught exception (a `CollectOut.err`) escaped. -/
def collectCells : List (ColName × InfoCollector) → FormatTag → FileName → Option (List Cell)
  | [], _, _ => some []
  | (_, c) :: rest, fmt, fn =>
    match c.collect fmt fn with
    | .val v => (collectCells rest fmt fn).map (fun cs => some v :: cs)
    | .notImpl => (collectCells rest fmt fn).map (fun cs => (none : Cell) :: cs)
    | .err => none

/-- The per-file row loop of `add_columns`.  Returns the per-row cell
lists (or `none` if an exception escaped), together with the trace of
files whose handles were opened and of files whose handles were closed.
An open failure raises before a handle exists; a collector `err` raises
after the open but before `f_obj.close()`. -/
def rowLoop (formats : List (FormatTag × DataFormat)) (kept : List (ColName × InfoCollector)) :
    List (FileName × FormatTag) → Option (List (List Cell)) × List FileName × List FileName
  | [] => (some [], [], [])
  | (fn, fmt) :: rest =>
    match lookupFmt formats fmt with
    | none => (none, [], [])
    | some df =>
      if df.openOk fn then
        match collectCells kept fmt fn with
        | some cells =>
          let out := rowLoop formats kept rest
          (out.1.map (fun rs => cells :: rs), fn :: out.2.1, fn :: out.2.2)
        | none => (none, [fn], [])
      else (none, [], [])

/-- The `col_info` dictionary turned into `(column, values)` pairs:
the column for the collector at position `idx` takes, from each row's
cell list, the cell at position `idx`. -/
def mkColInfoGo (rcells : List (List Cell)) : Nat → List (ColName × InfoCollector) →
    List (ColName × List Cell)
  | _, [] => []
  | idx, (cn, _) :: rest => (cn, rcells.map (fun rc => rc.getD idx none)) :: mkColInfoGo rcells (idx + 1) rest

/-- `target_table[key] = col_info[key]`: overwrite the column in place if
present, else append it on the right. -/
def setCol (t : Table) (cn : ColName) (vs : List Cell) : Table :=
  match idxOf? cn t.cols with
  | some i => { t with rows := t.rows.zipWith (fun r v => r.set i v) vs }
  | none => { t with cols := t.cols ++ [cn], rows := t.rows.zipWith (fun r v => r ++ [v]) vs }

def applyCols (t : Table) : List (ColName × List Cell) → Table
  | [] => t
  | (cn, vs) :: rest => applyCols (setCol t cn vs) rest

/-- Result of `add_columns`: the updated table (`none` when an uncaught
exception aborted the call), the open/close traces, and the column names
for which the column-exists warning was logged. -/
structure AddColsOut where
  table : Option Table
  opened : List FileName
  closed : List FileName
  warnings : List ColName
deriving DecidableEq

/-- `LofasmFileInfo.add_columns`.  Collectors whose column already
exists are warned about and skipped unless `overwrite`; the remaining
ones have their values collected file by file; finally the collected
columns are written into the table. -/
def add_columns (env : Env) (colls : List (ColName × InfoCollector)) (target : Table)
    (overwrite : Bool) : AddColsOut :=
  let warned := colls.filter (fun p => target.cols.contains p.1 && !overwrite)
  let kept := colls.filter (fun p => !(target.cols.contains p.1 && !overwrite))
  match idxOf? "filename" target.cols, idxOf? "fileformat" target.cols with
  | some _, some _ =>
    match rowLoop env.formats kept (fileFmtPairs target) with
    | (some rcells, o, c) =>
      { table := some (applyCols target (mkColInfoGo rcells 0 kept))
        opened := o, closed := c, warnings := warned.map Prod.fst }
    | (none, o, c) => { table := none, opened := o, closed := c, warnings := warned.map Prod.fst }
  | _, _ => { table := none, opened := [], closed := [], warnings := warned.map Prod.fst }

/-- `astropy.table.vstack([t1, t2])`: columns are the union (first
table's order first), missing cells are masked (`none`); rows of the
first table come first, unchanged. -/
def vstack (t1 t2 : Table) : Table :=
  let extras := t2.cols.filter (fun c => !t1.cols.contains c)
  let cols := t1.cols ++ extras
  { cols := cols
    rows :=
      t1.rows.map (fun r => r ++ List.replicate extras.length (none : Cell)) ++
      t2.rows.map (fun r => cols.map (fun c =>
        match idxOf? c t2.cols with
        | some i => r.getD i none
        | none => (none : Cell)))
    haschild := t1.haschild
    tname := t1.tname }

/-- The persisted-catalog storage: info-file name to serialized table
(serialization round-trips, so the stored value is the table itself). -/
def lookupStore : List (FileName × Table) → FileName → Option Table
  | [], _ => none
  | (n, t) :: rest, f => if n == f then some t else lookupStore rest f

def storeInsert (store : List (FileName × Table)) (n : FileName) (t : Table) :
    List (FileName × Table) :=
  if (store.map Prod.fst).contains n then
    store.map (fun p => if p.1 == n then (n, t) else p)
  else store ++ [(n, t)]

/-- The information-file name chosen in `__init__`: the first listed
`.info` candidate, else the directory base name with the suffix. -/
def infoNameOf (d : Dir) (bn : String) : FileName :=
  match infoCandidates d with
  | [] => bn ++ ".info"
  | n :: _ => n

/-- The default column names of `__init__`. -/
def defaultCols (add : List ColName) : List ColName :=
  ["station", "channel", "hdr_type", "start_time"] ++ add

/-- The fresh table built when no info file exists:
`Table([format_map.keys(), format_map.values()], names=('filename','fileformat'), meta=...)`. -/
def freshBase (env : Env) (d : Dir) (bn : String) : Table :=
  { cols := ["filename", "fileformat"]
    rows := (formatMapPairs env d).map (fun p => [some p.1, some p.2])
    haschild := !(prunedDirs d).isEmpty
    tname := bn ++ "_info_table" }

/-- `new_f_table` for the new files and their formats. -/
def newBase (newFiles : List FileName) (tags : List FormatTag) : Table :=
  { cols := ["filename", "fileformat"]
    rows := (newFiles.zip tags).map (fun p => [some p.1, some p.2])
    haschild := false
    tname := "" }

/-- `list(set(format_map.keys()) - set(self.info_table['filename']))`. -/
def deltaFiles (fmap : List (FileName × FormatTag)) (T : Table) : List FileName :=
  (fmap.map Prod.fst).filter (fun fn => !((filenameCells T).contains (some fn)))

/-- Result of `__init__` / `setup_info_table`: the chosen info-file
name, the resulting table (`none` when an exception escaped), the dirty
flag, the new-file delta, and the traces of `add_columns`. -/
structure InitOut where
  infoName : FileName
  table : Option Table
  table_update : Bool
  new_files : List FileName
  opened : List FileName
  closed : List FileName
  warnings : List ColName
deriving DecidableEq

/-- `LofasmFileInfo(directory)` up to and including `setup_info_table`.
`bn` is the directory base name, `addcols` the `add_col_names` argument,
`store` the persisted-catalog storage consulted for the info file. -/
def initMgr (env : Env) (d : Dir) (bn : String) (addcols : List ColName)
    (store : List (FileName × Table)) : InitOut :=
  let iname := infoNameOf d bn
  let fmap := formatMapPairs env d
  match lookupStore store iname with
  | some T =>
    if T.cols.contains "filename" then
      let nf := deltaFiles fmap T
      if nf.isEmpty then
        { infoName := iname, table := some T, table_update := false, new_files := []
          opened := [], closed := [], warnings := [] }
      else
        let tags := nf.map (lookupTag fmap)
        let coll := get_col_collector env.collectors T.cols
        let o := add_columns env coll (newBase nf tags) false
        match o.table with
        | some nT =>
          let m := vstack T nT
          let m2 := if tags.contains "data_dir" then { m with haschild := true } else m
          { infoName := iname, table := some m2, table_update := true, new_files := nf
            opened := o.opened, closed := o.closed, warnings := o.warnings }
        | none =>
          { infoName := iname, table := none, table_update := false, new_files := nf
            opened := o.opened, closed := o.closed, warnings := o.warnings }
    else
      { infoName := iname, table := none, table_update := false, new_files := []
        opened := [], closed := [], warnings := [] }
  | none =>
    let o := add_columns env (get_col_collector env.collectors (defaultCols addcols))
      (freshBase env d bn) false
    { infoName := iname, table := o.table, table_update := o.table.isSome, new_files := []
      opened := o.opened, closed := o.closed, warnings := o.warnings }

/-- `write_info_table`: persist only when the dirty flag is set
(`overwrite=True` replaces any stored table under the name). -/
def write_info_table (o : InitOut) (store : List (FileName × Table)) :
    List (FileName × Table) :=
  if o.table_update then
    match o.table with
    | some t => storeInsert store o.infoName t
    | none => store
  else store

/-! ### Generic list helper lemmas -/

theorem lofGetD_map {α β : Type} (f : α → β) (d : α) (d' : β) :
    ∀ (l : List α) (i : Nat), i < l.length → (l.map f).getD i d' = f (l.getD i d)
  | [], i, h => by simp at h
  | a :: l, 0, _ => rfl
  | a :: l, i + 1, h => by
    simpa using lofGetD_map f d d' l i (by simpa using h)

theorem lofGetD_concat {α : Type} (d : α) (v : α) :
    ∀ (l : List α), (l ++ [v]).getD l.length d = v
  | [] => rfl
  | _a :: l => lofGetD_concat d v l

theorem idxOf?_eq_none_iff (c : ColName) :
    ∀ (l : List ColName), idxOf? c l = none ↔ c ∉ l
  | [] => by simp [idxOf?]
  | a :: l => by
    by_cases h : a = c
    · simp [idxOf?, h]
    · have hb : (a == c) = false := by simpa using h
      simp [idxOf?, hb, idxOf?_eq_none_iff c l, Ne.symm h]

theorem idxOf?_lt_length (c : ColName) :
    ∀ (l : List ColName) (i : Nat), idxOf? c l = some i → i < l.length
  | [], i, h => by simp [idxOf?] at h
  | a :: l, i, h => by
    by_cases hb : a == c
    · simp only [idxOf?, hb, if_true, Option.some.injEq] at h
      subst h
      simp
    · simp only [idxOf?, hb, Bool.false_eq_true, if_false, Option.map_eq_some'] at h
      obtain ⟨j, hj, rfl⟩ := h
      have := idxOf?_lt_length c l j hj
      simpa using Nat.succ_lt_succ this

theorem idxOf?_getD (c : ColName) (d : ColName) :
    ∀ (l : List ColName) (i : Nat), idxOf? c l = some i → l.getD i d = c
  | [], i, h => by simp [idxOf?] at h
  | a :: l, i, h => by
    by_cases hb : a == c
    · simp only [idxOf?, hb, if_true, Option.some.injEq] at h
      subst h
      simpa using hb
    · simp only [idxOf?, hb, Bool.false_eq_true, if_false, Option.map_eq_some'] at h
      obtain ⟨j, hj, rfl⟩ := h
      simpa using idxOf?_getD c d l j hj

theorem idxOf?_append_left (c : ColName) (l₂ : List ColName) :
    ∀ (l₁ : List ColName) (i : Nat), idxOf? c l₁ = some i → idxOf? c (l₁ ++ l₂) = some i
  | [], i, h => by simp [idxOf?] at h
  | a :: l, i, h => by
    by_cases hb : a == c
    · simp only [idxOf?, hb, if_true] at h ⊢
      exact h
    · simp only [idxOf?, hb, Bool.false_eq_true, if_false, Option.map_eq_some'] at h
      obtain ⟨j, hj, rfl⟩ := h
      have hrec := idxOf?_append_left c l₂ l j hj
      simp only [List.cons_append, idxOf?, hb, Bool.false_eq_true, if_false, List.append_eq,
        hrec, Option.map_some']

theorem idxOf?_concat_self (c : ColName) :
    ∀ (l : List ColName), idxOf? c l = none → idxOf? c (l ++ [c]) = some l.length
  | [], _ => by simp [idxOf?]
  | a :: l, h => by
    by_cases hb : a == c
    · simp [idxOf?, hb] at h
    · simp only [idxOf?, hb, Bool.false_eq_true, if_false, Option.map_eq_none'] at h
      have hrec := idxOf?_concat_self c l h
      simp only [List.cons_append, idxOf?, hb, Bool.false_eq_true, if_false, List.append_eq,
        hrec, Option.map_some', List.length_cons]

theorem idxOf?_isSome_of_mem (c : ColName) (l : List ColName) (h : c ∈ l) :
    ∃ i, idxOf? c l = some i := by
  cases hi : idxOf? c l with
  | none => exact absurd h ((idxOf?_eq_none_iff c l).mp hi)
  | some i => exact ⟨i, rfl⟩

theorem pyFilterGo_sublist (keep : FileName → Bool) :
    ∀ (fuel i : Nat) (l : List FileName), (pyFilterGo keep fuel i l).Sublist l
  | 0, _, l => List.Sublist.refl l
  | fuel + 1, i, l => by
    rw [pyFilterGo]
    split
    · next h =>
      split
      · exact pyFilterGo_sublist keep fuel (i + 1) l
      · exact (pyFilterGo_sublist keep fuel (i + 1) (l.erase (l.get ⟨i, h⟩))).trans
          (List.erase_sublist _ l)
    · exact List.Sublist.refl l

theorem prunedDirs_sublist (d : Dir) : (prunedDirs d).Sublist (dataDirs0 d) :=
  pyFilterGo_sublist _ _ _ _

theorem prunedDirs_isDir (d : Dir) (x : FileName) (h : x ∈ prunedDirs d) :
    x ∈ d.listing ∧ d.isDir x = true := by
  have hx : x ∈ dataDirs0 d := (prunedDirs_sublist d).subset h
  unfold dataDirs0 at hx
  simp only [List.mem_filter] at hx
  exact hx

theorem dedupGo_cons_mem (seen : List ColName) (a : ColName) (l : List ColName)
    (h : a ∈ seen) : dedupGo seen (a :: l) = dedupGo seen l := by
  have hb : seen.contains a = true := by
    simpa using h
  simp only [dedupGo]
  rw [if_pos hb]

theorem dedupGo_cons_not_mem (seen : List ColName) (a : ColName) (l : List ColName)
    (h : a ∉ seen) : dedupGo seen (a :: l) = a :: dedupGo (a :: seen) l := by
  have hb : seen.contains a = false := by
    simpa using h
  simp only [dedupGo]
  rw [if_neg (by simpa using h)]

theorem dedupGo_nodup : ∀ (l seen : List ColName),
    (dedupGo seen l).Nodup ∧ ∀ c ∈ dedupGo seen l, c ∉ seen
  | [], seen => by simp [dedupGo]
  | a :: l, seen => by
    by_cases h : a ∈ seen
    · rw [dedupGo_cons_mem seen a l h]
      exact dedupGo_nodup l seen
    · rw [dedupGo_cons_not_mem seen a l h]
      have ih := dedupGo_nodup l (a :: seen)
      refine ⟨?_, ?_⟩
      · rw [List.nodup_cons]
        refine ⟨fun hmem => ?_, ih.1⟩
        exact (ih.2 a hmem) (by simp)
      · intro c hc
        rcases List.mem_cons.mp hc with rfl | hc
        · exact h
        · have := ih.2 c hc
          intro hs
          exact this (by simp [hs])

theorem dedupGo_subset (c : ColName) :
    ∀ (l seen : List ColName), c ∈ dedupGo seen l → c ∈ l
  | [], seen, h => by simp [dedupGo] at h
  | a :: l, seen, h => by
    by_cases hs : a ∈ seen
    · rw [dedupGo_cons_mem seen a l hs] at h
      exact List.mem_cons_of_mem a (dedupGo_subset c l seen h)
    · rw [dedupGo_cons_not_mem seen a l hs] at h
      rcases List.mem_cons.mp h with rfl | h
      · simp
      · exact List.mem_cons_of_mem a (dedupGo_subset c l (a :: seen) h)

theorem lookupColl_mem (reg : List (ColName × InfoCollector)) :
    ∀ (cn : ColName) (c : InfoCollector), lookupColl reg cn = some c → (cn, c) ∈ reg := by
  induction reg with
  | nil => intro cn c h; simp [lookupColl] at h
  | cons p reg ih =>
    intro cn c h
    by_cases hb : p.1 == cn
    · have h1 : p.1 = cn := by simpa using hb
      simp only [lookupColl, hb, if_true, Option.some.injEq] at h
      have h2 : (cn, c) = p := by
        rw [← h1, ← h]
      rw [h2]
      exact List.mem_cons_self p reg
    · simp only [lookupColl, hb, Bool.false_eq_true, if_false] at h
      exact List.mem_cons_of_mem p (ih cn c h)

theorem gcc_mem (reg : List (ColName × InfoCollector)) (cols : List ColName)
    (p : ColName × InfoCollector) (h : p ∈ get_col_collector reg cols) :
    p.1 ∈ cols ∧ p ∈ reg := by
  unfold get_col_collector at h
  simp only [List.mem_filterMap] at h
  obtain ⟨cn, hcn, hl⟩ := h
  cases hc : lookupColl reg cn with
  | none => rw [hc] at hl; simp at hl
  | some c =>
    rw [hc] at hl
    simp only [Option.map_some', Option.some.injEq] at hl
    cases hl
    exact ⟨dedupGo_subset cn cols [] hcn, lookupColl_mem reg cn c hc⟩

theorem gcc_names_nodup (reg : List (ColName × InfoCollector)) (cols : List ColName) :
    ((get_col_collector reg cols).map Prod.fst).Nodup := by
  unfold get_col_collector
  have hnd : (dedupGo [] cols).Nodup := (dedupGo_nodup cols []).1
  generalize dedupGo [] cols = l at hnd ⊢
  induction l with
  | nil => simp
  | cons a l ih =>
    have hal : a ∉ l := (List.nodup_cons.mp hnd).1
    have hl : l.Nodup := (List.nodup_cons.mp hnd).2
    cases hc : lookupColl reg a with
    | none => simpa [hc] using ih hl
    | some c =>
      simp only [List.filterMap_cons, hc, Option.map_some', List.map_cons, List.nodup_cons]
      refine ⟨fun hmem => ?_, ih hl⟩
      simp only [List.mem_map, List.mem_filterMap] at hmem
      obtain ⟨q, ⟨cn, hcn, hq⟩, hq1⟩ := hmem
      cases hlc : lookupColl reg cn with
      | none => rw [hlc] at hq; simp at hq
      | some c' =>
        rw [hlc] at hq
        simp only [Option.map_some', Option.some.injEq] at hq
        cases hq
        simp only at hq1
        exact hal (hq1 ▸ hcn)

/-! ### Lemmas about writing columns into a table -/

theorem colCells_of_idx (t : Table) (c : ColName) (i : Nat) (h : idxOf? c t.cols = some i) :
    colCells t c = t.rows.map (fun r => r.getD i none) := by
  unfold colCells
  rw [h]

theorem zwAppend_length : ∀ (rows : List (List Cell)) (vs : List Cell),
    vs.length = rows.length →
    (List.zipWith (fun r v => r ++ [v]) rows vs).length = rows.length := by
  intro rows vs h
  simp [List.length_zipWith, h]

theorem zwAppend_wf (n : Nat) : ∀ (rows : List (List Cell)) (vs : List Cell),
    (∀ r ∈ rows, r.length = n) →
    ∀ r' ∈ List.zipWith (fun r v => r ++ [v]) rows vs, r'.length = n + 1
  | [], _, _ => by simp
  | _ :: _, [], _ => by simp
  | r :: rows, v :: vs, hr => by
    intro r' hr'
    simp only [List.zipWith_cons_cons, List.mem_cons] at hr'
    rcases hr' with rfl | hr'
    · simp [hr r (List.mem_cons_self r rows)]
    · exact zwAppend_wf n rows vs (fun q hq => hr q (List.mem_cons_of_mem r hq)) r' hr'

theorem zwAppend_getD_at (n : Nat) : ∀ (rows : List (List Cell)) (vs : List Cell),
    (∀ r ∈ rows, r.length = n) → vs.length = rows.length →
    (List.zipWith (fun r v => r ++ [v]) rows vs).map (fun r => r.getD n none) = vs
  | [], vs, _, hl => by
    cases vs with
    | nil => rfl
    | cons v vs => simp at hl
  | r :: rows, vs, hr, hl => by
    cases vs with
    | nil => simp at hl
    | cons v vs =>
      have h0 : r.length = n := hr r (List.mem_cons_self r rows)
      have hv : (r ++ [v]).getD n none = v := by
        rw [← h0]
        exact lofGetD_concat none v r
      simp only [List.zipWith_cons_cons, List.map_cons, hv]
      rw [zwAppend_getD_at n rows vs (fun q hq => hr q (List.mem_cons_of_mem r hq))
        (by simpa using hl)]

theorem zwAppend_getD_lt (n i : Nat) (hi : i < n) : ∀ (rows : List (List Cell)) (vs : List Cell),
    (∀ r ∈ rows, r.length = n) → vs.length = rows.length →
    (List.zipWith (fun r v => r ++ [v]) rows vs).map (fun r => r.getD i none) =
      rows.map (fun r => r.getD i none)
  | [], vs, _, hl => by
    cases vs with
    | nil => rfl
    | cons v vs => simp at hl
  | r :: rows, vs, hr, hl => by
    cases vs with
    | nil => simp at hl
    | cons v vs =>
      have h0 : r.length = n := hr r (List.mem_cons_self r rows)
      have hv : (r ++ [v]).getD i none = r.getD i none :=
        List.getD_append r [v] none i (by omega)
      simp only [List.zipWith_cons_cons, List.map_cons, hv]
      rw [zwAppend_getD_lt n i hi rows vs (fun q hq => hr q (List.mem_cons_of_mem r hq))
        (by simpa using hl)]

theorem setCol_new (t : Table) (cn : ColName) (vs : List Cell) (h : cn ∉ t.cols) :
    setCol t cn vs =
      { t with cols := t.cols ++ [cn], rows := t.rows.zipWith (fun r v => r ++ [v]) vs } := by
  unfold setCol
  rw [(idxOf?_eq_none_iff cn t.cols).mpr h]

theorem applyCols_spec (cis : List (ColName × List Cell)) : ∀ (t : Table),
    (∀ p ∈ cis, p.1 ∉ t.cols) → (cis.map Prod.fst).Nodup →
    (∀ p ∈ cis, p.2.length = t.rows.length) → TableWF t →
    (applyCols t cis).cols = t.cols ++ cis.map Prod.fst ∧
    (applyCols t cis).rows.length = t.rows.length ∧
    TableWF (applyCols t cis) ∧
    (∀ c ∈ t.cols, colCells (applyCols t cis) c = colCells t c) ∧
    (∀ p ∈ cis, colCells (applyCols t cis) p.1 = p.2) ∧
    (applyCols t cis).haschild = t.haschild ∧ (applyCols t cis).tname = t.tname := by
  induction cis with
  | nil =>
    intro t _ _ _ h4
    exact ⟨by simp [applyCols], rfl, h4, fun c _ => rfl, by simp, rfl, rfl⟩
  | cons p rest ih =>
    obtain ⟨cn, vs⟩ := p
    intro t h1 h2 h3 h4
    have hcn : cn ∉ t.cols := h1 (cn, vs) (List.mem_cons_self _ _)
    have hvl : vs.length = t.rows.length := h3 (cn, vs) (List.mem_cons_self _ _)
    have hset := setCol_new t cn vs hcn
    have happ : applyCols t ((cn, vs) :: rest) = applyCols (setCol t cn vs) rest := rfl
    -- facts about the one-column update
    have hcols' : (setCol t cn vs).cols = t.cols ++ [cn] := by rw [hset]
    have hrows' : (setCol t cn vs).rows = t.rows.zipWith (fun r v => r ++ [v]) vs := by rw [hset]
    have hlen' : (setCol t cn vs).rows.length = t.rows.length := by
      rw [hrows']
      exact zwAppend_length t.rows vs hvl
    have hwf' : TableWF (setCol t cn vs) := by
      intro r hr
      rw [hrows'] at hr
      rw [hcols']
      simpa using zwAppend_wf t.cols.length t.rows vs h4 r hr
    have hself : colCells (setCol t cn vs) cn = vs := by
      have hidx : idxOf? cn ((setCol t cn vs).cols) = some t.cols.length := by
        rw [hcols']
        exact idxOf?_concat_self cn t.cols ((idxOf?_eq_none_iff cn t.cols).mpr hcn)
      rw [colCells_of_idx _ cn t.cols.length hidx, hrows']
      exact zwAppend_getD_at t.cols.length t.rows vs h4 hvl
    have hpres : ∀ c ∈ t.cols, colCells (setCol t cn vs) c = colCells t c := by
      intro c hc
      obtain ⟨i, hi⟩ := idxOf?_isSome_of_mem c t.cols hc
      have hilt : i < t.cols.length := idxOf?_lt_length c t.cols i hi
      have hidx : idxOf? c ((setCol t cn vs).cols) = some i := by
        rw [hcols']
        exact idxOf?_append_left c [cn] t.cols i hi
      rw [colCells_of_idx _ c i hidx, colCells_of_idx t c i hi, hrows']
      exact zwAppend_getD_lt t.cols.length i hilt t.rows vs h4 hvl
    -- apply the induction hypothesis at the updated table
    have hcnrest : cn ∉ rest.map Prod.fst := by
      simp only [List.map_cons, List.nodup_cons] at h2
      exact h2.1
    have h2' : (rest.map Prod.fst).Nodup := by
      simp only [List.map_cons, List.nodup_cons] at h2
      exact h2.2
    have h1' : ∀ p ∈ rest, p.1 ∉ (setCol t cn vs).cols := by
      intro p hp
      rw [hcols']
      intro hmem
      rcases List.mem_append.mp hmem with hmem | hmem
      · exact h1 p (List.mem_cons_of_mem _ hp) hmem
      · have hpcn : p.1 = cn := by simpa using hmem
        exact hcnrest (hpcn ▸ List.mem_map_of_mem Prod.fst hp)
    have h3' : ∀ p ∈ rest, p.2.length = (setCol t cn vs).rows.length := by
      intro p hp
      rw [hlen']
      exact h3 p (List.mem_cons_of_mem _ hp)
    obtain ⟨icols, ilen, iwf, ipres, iself, ihc, itn⟩ := ih (setCol t cn vs) h1' h2' h3' hwf'
    rw [happ]
    refine ⟨?_, ?_, iwf, ?_, ?_, ?_, ?_⟩
    · rw [icols, hcols']
      simp
    · rw [ilen, hlen']
    · intro c hc
      have hc' : c ∈ (setCol t cn vs).cols := by
        rw [hcols']
        exact List.mem_append_left [cn] hc
      rw [ipres c hc', hpres c hc]
    · intro p hp
      rcases List.mem_cons.mp hp with rfl | hp
      · have hc' : cn ∈ (setCol t cn vs).cols := by
          rw [hcols']
          exact List.mem_append_right t.cols (by simp)
        rw [ipres cn hc', hself]
      · exact iself p hp
    · rw [ihc, hset]
    · rw [itn, hset]

/-! ### Lemmas about the collection loop of add_columns -/

def keptColls (colls : List (ColName × InfoCollector)) (tcols : List ColName) :
    List (ColName × InfoCollector) :=
  colls.filter (fun p => !(tcols.contains p.1))

theorem keptColls_not_mem (colls : List (ColName × InfoCollector)) (tcols : List ColName) :
    ∀ p ∈ keptColls colls tcols, p.1 ∉ tcols := by
  intro p hp
  have h := (List.mem_filter.mp hp).2
  simpa using h

theorem keptColls_sub (colls : List (ColName × InfoCollector)) (tcols : List ColName) :
    ∀ p ∈ keptColls colls tcols, p ∈ colls := by
  intro p hp
  exact (List.mem_filter.mp hp).1

theorem collectCells_noerr : ∀ (kept : List (ColName × InfoCollector)) (fmt : FormatTag)
    (fn : FileName), (∀ p ∈ kept, p.2.collect fmt fn ≠ CollectOut.err) →
    collectCells kept fmt fn = some (kept.map (fun p => cellOf p.2 fmt fn))
  | [], _, _, _ => rfl
  | (cn, c) :: rest, fmt, fn, h => by
    have hrec := collectCells_noerr rest fmt fn (fun p hp => h p (List.mem_cons_of_mem _ hp))
    have hc := h (cn, c) (List.mem_cons_self _ _)
    cases hcc : c.collect fmt fn with
    | val v => simp [collectCells, hcc, hrec, cellOf]
    | notImpl => simp [collectCells, hcc, hrec, cellOf]
    | err => exact absurd hcc hc

theorem rowLoop_some_length (formats : List (FormatTag × DataFormat))
    (kept : List (ColName × InfoCollector)) : ∀ (pairs : List (FileName × FormatTag))
    (rc : List (List Cell)) (o cl : List FileName),
    rowLoop formats kept pairs = (some rc, o, cl) → rc.length = pairs.length
  | [], rc, o, cl, h => by
    simp only [rowLoop, Prod.mk.injEq, Option.some.injEq] at h
    rw [← h.1]
    rfl
  | (fn, fmt) :: rest, rc, o, cl, h => by
    simp only [rowLoop] at h
    cases hlf : lookupFmt formats fmt with
    | none =>
      rw [hlf] at h
      simp at h
    | some df =>
      rw [hlf] at h
      dsimp only at h
      by_cases hopen : df.openOk fn
      · rw [if_pos hopen] at h
        cases hcc : collectCells kept fmt fn with
        | none =>
          rw [hcc] at h
          simp at h
        | some cells =>
          rw [hcc] at h
          rcases hrl : rowLoop formats kept rest with ⟨orc, oo, ocl⟩
          rw [hrl] at h
          simp only [Prod.mk.injEq] at h
          cases orc with
          | none => simp at h
          | some rc' =>
            have h1 : cells :: rc' = rc := by simpa using h.1
            have := rowLoop_some_length formats kept rest rc' oo ocl hrl
            rw [← h1]
            simpa using this
      · rw [if_neg hopen] at h
        simp at h

theorem rowLoop_success (formats : List (FormatTag × DataFormat))
    (kept : List (ColName × InfoCollector)) : ∀ (pairs : List (FileName × FormatTag)),
    (∀ pr ∈ pairs, ∃ df, lookupFmt formats pr.2 = some df ∧ df.openOk pr.1 = true) →
    (∀ pr ∈ pairs, ∀ p ∈ kept, p.2.collect pr.2 pr.1 ≠ CollectOut.err) →
    rowLoop formats kept pairs =
      (some (pairs.map (fun pr => kept.map (fun p => cellOf p.2 pr.2 pr.1))),
        pairs.map Prod.fst, pairs.map Prod.fst)
  | [], _, _ => rfl
  | (fn, fmt) :: rest, hok, hne => by
    obtain ⟨df, hdf, hopen⟩ := hok (fn, fmt) (List.mem_cons_self _ _)
    have hcc := collectCells_noerr kept fmt fn
      (fun p hp => hne (fn, fmt) (List.mem_cons_self _ _) p hp)
    have hrec := rowLoop_success formats kept rest
      (fun pr hpr => hok pr (List.mem_cons_of_mem _ hpr))
      (fun pr hpr => hne pr (List.mem_cons_of_mem _ hpr))
    simp only [rowLoop, hdf, hopen, if_true, hcc, hrec, List.map_cons, Option.map_some']

theorem mkColInfoGo_names (rc : List (List Cell)) :
    ∀ (kept : List (ColName × InfoCollector)) (i : Nat),
    (mkColInfoGo rc i kept).map Prod.fst = kept.map Prod.fst
  | [], _ => rfl
  | (cn, c) :: rest, i => by
    simp [mkColInfoGo, mkColInfoGo_names rc rest (i + 1)]

theorem mkColInfoGo_len (rc : List (List Cell)) :
    ∀ (kept : List (ColName × InfoCollector)) (i : Nat),
    ∀ p ∈ mkColInfoGo rc i kept, p.2.length = rc.length
  | [], i, p, hp => by simp [mkColInfoGo] at hp
  | (cn, c) :: rest, i, p, hp => by
    simp only [mkColInfoGo, List.mem_cons] at hp
    rcases hp with rfl | hp
    · simp
    · exact mkColInfoGo_len rc rest (i + 1) p hp

theorem drop_cons_parts {α : Type} (a : α) : ∀ (l : List α) (i : Nat) (t : List α),
    l.drop i = a :: t → (∀ d, l.getD i d = a) ∧ l.drop (i + 1) = t
  | [], i, t, h => by simp at h
  | b :: l, 0, t, h => by
    simp only [List.drop_zero] at h
    cases h
    exact ⟨fun d => rfl, by simp⟩
  | b :: l, i + 1, t, h => by
    simp only [List.drop_succ_cons] at h
    have hrec := drop_cons_parts a l i t h
    exact ⟨fun d => hrec.1 d, by simpa [List.drop_succ_cons] using hrec.2⟩

theorem mkColInfoGo_shape (pairs : List (FileName × FormatTag))
    (kept0 : List (ColName × InfoCollector)) :
    ∀ (rest : List (ColName × InfoCollector)) (idx : Nat), kept0.drop idx = rest →
    mkColInfoGo (pairs.map (fun pr => kept0.map (fun q => cellOf q.2 pr.2 pr.1))) idx rest =
      rest.map (fun q => (q.1, pairs.map (fun pr => cellOf q.2 pr.2 pr.1)))
  | [], idx, _ => rfl
  | (cn, c) :: rest, idx, h => by
    have hlt : idx < kept0.length := by
      by_contra hge
      push_neg at hge
      rw [List.drop_eq_nil_of_le hge] at h
      simp at h
    obtain ⟨hget, hdrop⟩ := drop_cons_parts (cn, c) kept0 idx rest h
    have hrec := mkColInfoGo_shape pairs kept0 rest (idx + 1) hdrop
    simp only [mkColInfoGo, hrec, List.map_cons]
    have hval : (pairs.map (fun pr => kept0.map (fun q => cellOf q.2 pr.2 pr.1))).map
        (fun rc => rc.getD idx none) = pairs.map (fun pr => cellOf c pr.2 pr.1) := by
      rw [List.map_map]
      refine List.map_congr_left ?_
      intro pr _
      simp only [Function.comp_apply]
      rw [lofGetD_map (fun q => cellOf q.2 pr.2 pr.1) (cn, c) none kept0 idx hlt, hget (cn, c)]
    rw [hval]

/-! ### Specification lemmas for add_columns (overwrite = false) -/

theorem add_columns_eq (env : Env) (colls : List (ColName × InfoCollector)) (target : Table)
    (i j : Nat) (hi : idxOf? "filename" target.cols = some i)
    (hj : idxOf? "fileformat" target.cols = some j) :
    add_columns env colls target false =
      (match rowLoop env.formats (keptColls colls target.cols) (fileFmtPairs target) with
      | (some rcells, o, c) =>
        { table := some (applyCols target
            (mkColInfoGo rcells 0 (keptColls colls target.cols)))
          opened := o, closed := c
          warnings := (colls.filter (fun p => target.cols.contains p.1)).map Prod.fst }
      | (none, o, c) =>
        { table := none, opened := o, closed := c
          warnings := (colls.filter (fun p => target.cols.contains p.1)).map Prod.fst }) := by
  unfold add_columns
  rw [hi, hj]
  simp [keptColls]

theorem add_columns_none_of_no_col (env : Env) (colls : List (ColName × InfoCollector))
    (target : Table)
    (h : idxOf? "filename" target.cols = none ∨ idxOf? "fileformat" target.cols = none) :
    (add_columns env colls target false).table = none := by
  unfold add_columns
  rcases h with h | h
  · rw [h]
  · cases hi : idxOf? "filename" target.cols with
    | none => rfl
    | some i => rw [h]

theorem add_columns_some_spec (env : Env) (colls : List (ColName × InfoCollector))
    (target : Table) (U : Table)
    (hnd : ((keptColls colls target.cols).map Prod.fst).Nodup)
    (hwf : TableWF target)
    (h : (add_columns env colls target false).table = some U) :
    U.cols = target.cols ++ (keptColls colls target.cols).map Prod.fst ∧
    U.rows.length = target.rows.length ∧ TableWF U ∧
    (∀ c ∈ target.cols, colCells U c = colCells target c) ∧
    U.haschild = target.haschild ∧ U.tname = target.tname := by
  cases hi : idxOf? "filename" target.cols with
  | none =>
    rw [add_columns_none_of_no_col env colls target (Or.inl hi)] at h
    simp at h
  | some i =>
    cases hj : idxOf? "fileformat" target.cols with
    | none =>
      rw [add_columns_none_of_no_col env colls target (Or.inr hj)] at h
      simp at h
    | some j =>
      rw [add_columns_eq env colls target i j hi hj] at h
      rcases hrl : rowLoop env.formats (keptColls colls target.cols) (fileFmtPairs target)
        with ⟨orc, oo, ocl⟩
      rw [hrl] at h
      cases orc with
      | none => simp at h
      | some rcells =>
        simp only [Option.some.injEq] at h
        have hrcl : rcells.length = (fileFmtPairs target).length :=
          rowLoop_some_length env.formats (keptColls colls target.cols)
            (fileFmtPairs target) rcells oo ocl hrl
        have hplen : (fileFmtPairs target).length = target.rows.length := by
          unfold fileFmtPairs
          rw [hi, hj]
          simp
        have h1 : ∀ p ∈ mkColInfoGo rcells 0 (keptColls colls target.cols),
            p.1 ∉ target.cols := by
          intro p hp
          have hmem : p.1 ∈ (mkColInfoGo rcells 0 (keptColls colls target.cols)).map Prod.fst :=
            List.mem_map_of_mem Prod.fst hp
          rw [mkColInfoGo_names] at hmem
          obtain ⟨q, hq, hq1⟩ := List.mem_map.mp hmem
          exact hq1 ▸ keptColls_not_mem colls target.cols q hq
        have h2 : ((mkColInfoGo rcells 0 (keptColls colls target.cols)).map Prod.fst).Nodup := by
          rw [mkColInfoGo_names]
          exact hnd
        have h3 : ∀ p ∈ mkColInfoGo rcells 0 (keptColls colls target.cols),
            p.2.length = target.rows.length := by
          intro p hp
          rw [mkColInfoGo_len rcells (keptColls colls target.cols) 0 p hp, hrcl, hplen]
        obtain ⟨icols, ilen, iwf, ipres, _, ihc, itn⟩ :=
          applyCols_spec (mkColInfoGo rcells 0 (keptColls colls target.cols)) target h1 h2 h3 hwf
        rw [← h]
        exact ⟨by rw [icols, mkColInfoGo_names], ilen, iwf, ipres, ihc, itn⟩

theorem add_columns_success_spec (env : Env) (colls : List (ColName × InfoCollector))
    (target : Table)
    (hnd : ((keptColls colls target.cols).map Prod.fst).Nodup)
    (hwf : TableWF target)
    (hfn : "filename" ∈ target.cols) (hff : "fileformat" ∈ target.cols)
    (hok : ∀ pr ∈ fileFmtPairs target,
      ∃ df, lookupFmt env.formats pr.2 = some df ∧ df.openOk pr.1 = true)
    (hne : ∀ pr ∈ fileFmtPairs target, ∀ p ∈ keptColls colls target.cols,
      p.2.collect pr.2 pr.1 ≠ CollectOut.err) :
    ∃ U, (add_columns env colls target false).table = some U ∧
      (∀ p ∈ keptColls colls target.cols,
        colCells U p.1 = (fileFmtPairs target).map (fun pr => cellOf p.2 pr.2 pr.1)) ∧
      (add_columns env colls target false).opened = (fileFmtPairs target).map Prod.fst ∧
      (add_columns env colls target false).closed = (fileFmtPairs target).map Prod.fst ∧
      (add_columns env colls target false).warnings =
        (colls.filter (fun p => target.cols.contains p.1)).map Prod.fst := by
  obtain ⟨i, hi⟩ := idxOf?_isSome_of_mem _ _ hfn
  obtain ⟨j, hj⟩ := idxOf?_isSome_of_mem _ _ hff
  have hrl := rowLoop_success env.formats (keptColls colls target.cols) (fileFmtPairs target)
    hok hne
  rw [add_columns_eq env colls target i j hi hj, hrl]
  have hshape := mkColInfoGo_shape (fileFmtPairs target) (keptColls colls target.cols)
    (keptColls colls target.cols) 0 (by simp)
  refine ⟨_, rfl, ?_, rfl, rfl, rfl⟩
  intro p hp
  have hplen : (fileFmtPairs target).length = target.rows.length := by
    unfold fileFmtPairs
    rw [hi, hj]
    simp
  have h1 : ∀ q ∈ (keptColls colls target.cols).map
      (fun q => (q.1, (fileFmtPairs target).map (fun pr => cellOf q.2 pr.2 pr.1))),
      q.1 ∉ target.cols := by
    intro q hq
    obtain ⟨q', hq', hq1⟩ := List.mem_map.mp hq
    rw [← hq1]
    exact keptColls_not_mem colls target.cols q' hq'
  have h2 : (((keptColls colls target.cols).map
      (fun q => (q.1, (fileFmtPairs target).map (fun pr => cellOf q.2 pr.2 pr.1)))).map
      Prod.fst).Nodup := by
    rw [List.map_map]
    exact hnd
  have h3 : ∀ q ∈ (keptColls colls target.cols).map
      (fun q => (q.1, (fileFmtPairs target).map (fun pr => cellOf q.2 pr.2 pr.1))),
      q.2.length = target.rows.length := by
    intro q hq
    obtain ⟨q', hq', hq1⟩ := List.mem_map.mp hq
    rw [← hq1]
    simpa using hplen
  obtain ⟨_, _, _, _, iself, _, _⟩ := applyCols_spec ((keptColls colls target.cols).map
    (fun q => (q.1, (fileFmtPairs target).map (fun pr => cellOf q.2 pr.2 pr.1)))) target h1 h2 h3 hwf
  rw [hshape]
  exact iself (p.1, (fileFmtPairs target).map (fun pr => cellOf p.2 pr.2 pr.1))
    (by exact List.mem_map.mpr ⟨p, hp, rfl⟩)

/-! ### Lemmas about vstack and the base tables -/

theorem vstack_parts (t1 t2 : Table) :
    (vstack t1 t2).cols = t1.cols ++ t2.cols.filter (fun c => !t1.cols.contains c) ∧
    (vstack t1 t2).rows =
      t1.rows.map (fun r =>
        r ++ List.replicate (t2.cols.filter (fun c => !t1.cols.contains c)).length (none : Cell)) ++
      t2.rows.map (fun r =>
        (t1.cols ++ t2.cols.filter (fun c => !t1.cols.contains c)).map (fun c =>
          match idxOf? c t2.cols with
          | some i => r.getD i none
          | none => (none : Cell))) ∧
    (vstack t1 t2).haschild = t1.haschild ∧ (vstack t1 t2).tname = t1.tname :=
  ⟨rfl, rfl, rfl, rfl⟩

theorem vstack_of_sub (t1 t2 : Table) (h : ∀ c ∈ t2.cols, c ∈ t1.cols) :
    (vstack t1 t2).cols = t1.cols ∧
    (vstack t1 t2).rows = t1.rows ++ t2.rows.map (fun r => t1.cols.map (fun c =>
      match idxOf? c t2.cols with
      | some i => r.getD i none
      | none => (none : Cell))) := by
  have hext : t2.cols.filter (fun c => !t1.cols.contains c) = [] := by
    rw [List.filter_eq_nil_iff]
    intro c hc
    simpa using h c hc
  obtain ⟨h1, h2, _, _⟩ := vstack_parts t1 t2
  rw [hext] at h1 h2
  constructor
  · simpa using h1
  · rw [h2]
    simp

theorem colCells_vstack (t1 t2 : Table) (c : ColName) (hwf : TableWF t1)
    (hc1 : c ∈ t1.cols) (hc2 : c ∈ t2.cols) :
    colCells (vstack t1 t2) c = colCells t1 c ++ colCells t2 c := by
  obtain ⟨i, hi⟩ := idxOf?_isSome_of_mem c t1.cols hc1
  obtain ⟨j, hj⟩ := idxOf?_isSome_of_mem c t2.cols hc2
  have hilt := idxOf?_lt_length c t1.cols i hi
  obtain ⟨hcols, hrows, _, _⟩ := vstack_parts t1 t2
  have hidx : idxOf? c (vstack t1 t2).cols = some i := by
    rw [hcols]
    exact idxOf?_append_left c _ t1.cols i hi
  rw [colCells_of_idx _ c i hidx, colCells_of_idx t1 c i hi, colCells_of_idx t2 c j hj, hrows,
    List.map_append]
  congr 1
  · rw [List.map_map]
    refine List.map_congr_left ?_
    intro r hr
    simp only [Function.comp_apply]
    exact List.getD_append r _ none i (by rw [hwf r hr]; exact hilt)
  · rw [List.map_map]
    refine List.map_congr_left ?_
    intro r _
    simp only [Function.comp_apply]
    have hlen : i < (t1.cols ++ t2.cols.filter (fun c => !t1.cols.contains c)).length := by
      rw [List.length_append]
      omega
    rw [lofGetD_map _ c none _ i hlen]
    have hgd : (t1.cols ++ t2.cols.filter (fun c => !t1.cols.contains c)).getD i c = c :=
      idxOf?_getD c c _ i (idxOf?_append_left c _ t1.cols i hi)
    rw [hgd, hj]

theorem freshBase_wf (env : Env) (d : Dir) (bn : String) : TableWF (freshBase env d bn) := by
  intro r hr
  unfold freshBase at hr
  simp only [List.mem_map] at hr
  obtain ⟨p, _, rfl⟩ := hr
  rfl

theorem freshBase_filename (env : Env) (d : Dir) (bn : String) :
    filenameCells (freshBase env d bn) = (formatMapPairs env d).map (fun p => some p.1) := by
  unfold filenameCells
  rw [colCells_of_idx _ "filename" 0 (by simp [freshBase, idxOf?])]
  show ((formatMapPairs env d).map (fun p => [some p.1, some p.2])).map (fun r => r.getD 0 none) = _
  rw [List.map_map]
  rfl

theorem newBase_wf (nf : List FileName) (tags : List FormatTag) : TableWF (newBase nf tags) := by
  intro r hr
  unfold newBase at hr
  simp only [List.mem_map] at hr
  obtain ⟨p, _, rfl⟩ := hr
  rfl

theorem newBase_filename (nf : List FileName) (tags : List FormatTag)
    (hlen : nf.length ≤ tags.length) :
    filenameCells (newBase nf tags) = nf.map (fun f => some f) := by
  unfold filenameCells
  rw [colCells_of_idx _ "filename" 0 (by simp [newBase, idxOf?])]
  show ((nf.zip tags).map (fun p => [some p.1, some p.2])).map (fun r => r.getD 0 none) = _
  rw [List.map_map]
  have : ((nf.zip tags).map fun p => (some p.1 : Cell)) = nf.map (fun f => some f) := by
    have hfst := List.map_fst_zip nf tags hlen
    calc ((nf.zip tags).map fun p => (some p.1 : Cell))
        = ((nf.zip tags).map Prod.fst).map (fun f => some f) := by rw [List.map_map]; rfl
      _ = nf.map (fun f => some f) := by rw [hfst]
  exact this

theorem newBase_pairs (nf : List FileName) (tags : List FormatTag) :
    fileFmtPairs (newBase nf tags) = nf.zip tags := by
  unfold fileFmtPairs
  have h0 : idxOf? "filename" (newBase nf tags).cols = some 0 := by simp [newBase, idxOf?]
  have h1 : idxOf? "fileformat" (newBase nf tags).cols = some 1 := by simp [newBase, idxOf?]
  rw [h0, h1]
  show ((nf.zip tags).map (fun p => [some p.1, some p.2])).map
    (fun r => (cellStr (r.getD 0 none), cellStr (r.getD 1 none))) = nf.zip tags
  rw [List.map_map]
  have : ∀ p : FileName × FormatTag,
      (cellStr (([some p.1, some p.2] : List Cell).getD 0 none),
       cellStr (([some p.1, some p.2] : List Cell).getD 1 none)) = p := by
    intro p
    rfl
  calc ((nf.zip tags).map ((fun r => (cellStr (r.getD 0 none), cellStr (r.getD 1 none))) ∘
          (fun p => [some p.1, some p.2])))
      = (nf.zip tags).map id := by
        refine List.map_congr_left ?_
        intro p _
        exact this p
    _ = nf.zip tags := List.map_id _

/-! ### Lemmas about the scan and the format map -/

theorem fmtFiles_mem (allF : List (FormatTag × DataFormat)) (d : Dir) (k : FormatTag)
    (fn : FileName) :
    fn ∈ fmtFiles allF d k ↔
      fn ∈ d.listing ∧ d.isDir fn = false ∧ matchFmt allF fn = some k := by
  unfold fmtFiles
  rw [List.mem_filter]
  constructor
  · rintro ⟨h1, h2⟩
    simp only [Bool.and_eq_true, Bool.not_eq_true', beq_iff_eq] at h2
    exact ⟨h1, h2.1, h2.2⟩
  · rintro ⟨h1, h2, h3⟩
    refine ⟨h1, ?_⟩
    simp [h2, h3]

theorem matchFmt_mem_tags : ∀ (fmts : List (FormatTag × DataFormat)) (fn : FileName)
    (k : FormatTag), matchFmt fmts fn = some k → k ∈ fmts.map Prod.fst
  | [], fn, k, h => by simp [matchFmt] at h
  | (k', df) :: rest, fn, k, h => by
    by_cases hm : df.is_format fn
    · simp only [matchFmt, hm, if_true, Option.some.injEq] at h
      simp [h]
    · simp only [matchFmt, hm, Bool.false_eq_true, if_false] at h
      exact List.mem_cons_of_mem _ (matchFmt_mem_tags rest fn k h)

theorem fmtSection_mem (allF : List (FormatTag × DataFormat)) (d : Dir) :
    ∀ (fmts : List (FormatTag × DataFormat)) (fn : FileName) (k : FormatTag),
    (fn, k) ∈ fmtSection allF d fmts ↔ k ∈ fmts.map Prod.fst ∧ fn ∈ fmtFiles allF d k
  | [], fn, k => by simp [fmtSection]
  | (k', df) :: rest, fn, k => by
    simp only [fmtSection]
    constructor
    · intro h
      rcases List.mem_append.mp h with h | h
      · obtain ⟨f, hf, hfk⟩ := List.mem_map.mp h
        injection hfk with h1 h2
        subst h1
        subst h2
        exact ⟨by simp, hf⟩
      · have hrec := (fmtSection_mem allF d rest fn k).mp h
        refine ⟨?_, hrec.2⟩
        simp only [List.map_cons]
        exact List.mem_cons_of_mem _ hrec.1
    · rintro ⟨hk, hfn⟩
      simp only [List.map_cons, List.mem_cons] at hk
      rcases hk with rfl | hk
      · exact List.mem_append.mpr (Or.inl (List.mem_map_of_mem _ hfn))
      · exact List.mem_append.mpr (Or.inr ((fmtSection_mem allF d rest fn k).mpr ⟨hk, hfn⟩))

theorem fmtSection_keys_mem (allF : List (FormatTag × DataFormat)) (d : Dir)
    (fmts : List (FormatTag × DataFormat)) (fn : FileName) :
    fn ∈ (fmtSection allF d fmts).map Prod.fst ↔
      ∃ k, k ∈ fmts.map Prod.fst ∧ fn ∈ fmtFiles allF d k := by
  rw [List.mem_map]
  constructor
  · rintro ⟨⟨f, k⟩, hp, hfk⟩
    dsimp at hfk
    subst hfk
    have hh := (fmtSection_mem allF d fmts f k).mp hp
    exact ⟨k, hh.1, hh.2⟩
  · rintro ⟨k, hk, hfn⟩
    exact ⟨(fn, k), (fmtSection_mem allF d fmts fn k).mpr ⟨hk, hfn⟩, rfl⟩

theorem formatMapPairs_mem (env : Env) (d : Dir) (fn : FileName) (k : FormatTag) :
    (fn, k) ∈ formatMapPairs env d ↔
      (fn ∈ prunedDirs d ∧ k = "data_dir") ∨
      (k ∈ env.formats.map Prod.fst ∧ fn ∈ d.listing ∧ d.isDir fn = false ∧
        matchFmt env.formats fn = some k) := by
  unfold formatMapPairs
  rw [List.mem_append]
  constructor
  · rintro (h | h)
    · obtain ⟨s, hs, hsk⟩ := List.mem_map.mp h
      cases hsk
      exact Or.inl ⟨hs, rfl⟩
    · have := (fmtSection_mem env.formats d env.formats fn k).mp h
      rw [fmtFiles_mem] at this
      exact Or.inr ⟨this.1, this.2.1, this.2.2.1, this.2.2.2⟩
  · rintro (⟨h1, rfl⟩ | ⟨h1, h2, h3, h4⟩)
    · exact Or.inl (List.mem_map_of_mem _ h1)
    · refine Or.inr ((fmtSection_mem env.formats d env.formats fn k).mpr ⟨h1, ?_⟩)
      rw [fmtFiles_mem]
      exact ⟨h2, h3, h4⟩

theorem formatMap_keys_mem (env : Env) (d : Dir) (fn : FileName) :
    fn ∈ (formatMapPairs env d).map Prod.fst ↔
      fn ∈ prunedDirs d ∨
      (fn ∈ d.listing ∧ d.isDir fn = false ∧ matchFmt env.formats fn ≠ none) := by
  rw [List.mem_map]
  constructor
  · rintro ⟨⟨f, k⟩, hp, hfk⟩
    dsimp at hfk
    subst hfk
    rcases (formatMapPairs_mem env d f k).mp hp with ⟨h1, _⟩ | ⟨_, h2, h3, h4⟩
    · exact Or.inl h1
    · exact Or.inr ⟨h2, h3, by simp [h4]⟩
  · rintro (h | ⟨h1, h2, h3⟩)
    · exact ⟨(fn, "data_dir"), (formatMapPairs_mem env d fn "data_dir").mpr (Or.inl ⟨h, rfl⟩), rfl⟩
    · cases hm : matchFmt env.formats fn with
      | none => exact absurd hm h3
      | some k =>
        exact ⟨(fn, k), (formatMapPairs_mem env d fn k).mpr
          (Or.inr ⟨matchFmt_mem_tags env.formats fn k hm, h1, h2, hm⟩), rfl⟩

theorem fmtSection_keys_nodup (allF : List (FormatTag × DataFormat)) (d : Dir)
    (hl : d.listing.Nodup) : ∀ (fmts : List (FormatTag × DataFormat)),
    (fmts.map Prod.fst).Nodup → ((fmtSection allF d fmts).map Prod.fst).Nodup
  | [], _ => by simp [fmtSection]
  | (k, df) :: rest, hnd => by
    simp only [List.map_cons, List.nodup_cons] at hnd
    have ih := fmtSection_keys_nodup allF d hl rest hnd.2
    simp only [fmtSection, List.map_append, List.nodup_append]
    have hcomp : ((fmtFiles allF d k).map (fun fn => (fn, k))).map Prod.fst =
        fmtFiles allF d k := by
      rw [List.map_map]
      calc List.map (Prod.fst ∘ fun fn => (fn, k)) (fmtFiles allF d k)
          = List.map id (fmtFiles allF d k) := List.map_congr_left (fun a _ => rfl)
        _ = fmtFiles allF d k := List.map_id _
    refine ⟨?_, ih, ?_⟩
    · rw [hcomp]
      exact List.Nodup.filter _ hl
    · intro fn hfn hfn'
      rw [hcomp] at hfn
      have hk : matchFmt allF fn = some k := ((fmtFiles_mem allF d k fn).mp hfn).2.2
      obtain ⟨k', hk', hmem'⟩ := (fmtSection_keys_mem allF d rest fn).mp hfn'
      have hk2 : matchFmt allF fn = some k' := ((fmtFiles_mem allF d k' fn).mp hmem').2.2
      have hkk : k = k' := by
        rw [hk] at hk2
        exact Option.some.inj hk2
      exact hnd.1 (hkk ▸ hk')

theorem prunedDirs_nodup (d : Dir) (hl : d.listing.Nodup) : (prunedDirs d).Nodup :=
  (prunedDirs_sublist d).nodup (List.Nodup.filter _ hl)

theorem formatMap_keys_nodup (env : Env) (d : Dir) (hl : d.listing.Nodup)
    (hf : (env.formats.map Prod.fst).Nodup) :
    ((formatMapPairs env d).map Prod.fst).Nodup := by
  unfold formatMapPairs
  rw [List.map_append, List.nodup_append]
  have hcomp : ((prunedDirs d).map (fun s => (s, ("data_dir" : FormatTag)))).map Prod.fst =
      prunedDirs d := by
    rw [List.map_map]
    calc List.map (Prod.fst ∘ fun s => (s, ("data_dir" : FormatTag))) (prunedDirs d)
        = List.map id (prunedDirs d) := List.map_congr_left (fun a _ => rfl)
      _ = prunedDirs d := List.map_id _
  refine ⟨?_, fmtSection_keys_nodup env.formats d hl env.formats hf, ?_⟩
  · rw [hcomp]
    exact prunedDirs_nodup d hl
  · intro fn hfn hfn'
    rw [hcomp] at hfn
    have hdir : d.isDir fn = true := (prunedDirs_isDir d fn hfn).2
    obtain ⟨k, _, hmem⟩ := (fmtSection_keys_mem env.formats d env.formats fn).mp hfn'
    have hnd : d.isDir fn = false := ((fmtFiles_mem env.formats d k fn).mp hmem).2.1
    rw [hdir] at hnd
    cases hnd

/-! ### Lemmas about initMgr -/

theorem keptColls_names_nodup (colls : List (ColName × InfoCollector)) (tcols : List ColName)
    (h : (colls.map Prod.fst).Nodup) : ((keptColls colls tcols).map Prod.fst).Nodup :=
  ((List.filter_sublist colls).map Prod.fst).nodup h

theorem initMgr_fresh_eq (env : Env) (d : Dir) (bn : String) (addcols : List ColName)
    (store : List (FileName × Table))
    (h : lookupStore store (infoNameOf d bn) = none) :
    initMgr env d bn addcols store =
      { infoName := infoNameOf d bn
        table := (add_columns env (get_col_collector env.collectors (defaultCols addcols))
          (freshBase env d bn) false).table
        table_update := (add_columns env (get_col_collector env.collectors (defaultCols addcols))
          (freshBase env d bn) false).table.isSome
        new_files := []
        opened := (add_columns env (get_col_collector env.collectors (defaultCols addcols))
          (freshBase env d bn) false).opened
        closed := (add_columns env (get_col_collector env.collectors (defaultCols addcols))
          (freshBase env d bn) false).closed
        warnings := (add_columns env (get_col_collector env.collectors (defaultCols addcols))
          (freshBase env d bn) false).warnings } := by
  unfold initMgr
  dsimp only
  rw [h]

theorem initMgr_existing_nodelta (env : Env) (d : Dir) (bn : String) (addcols : List ColName)
    (store : List (FileName × Table)) (T : Table)
    (hst : lookupStore store (infoNameOf d bn) = some T)
    (hfncol : T.cols.contains "filename" = true)
    (hd : deltaFiles (formatMapPairs env d) T = []) :
    initMgr env d bn addcols store =
      { infoName := infoNameOf d bn, table := some T, table_update := false, new_files := []
        opened := [], closed := [], warnings := [] } := by
  unfold initMgr
  dsimp only
  rw [hst]
  dsimp only
  rw [if_pos hfncol, hd]
  rfl

theorem initMgr_existing_delta (env : Env) (d : Dir) (bn : String) (addcols : List ColName)
    (store : List (FileName × Table)) (T : Table) (nf : List FileName)
    (hst : lookupStore store (infoNameOf d bn) = some T)
    (hfncol : T.cols.contains "filename" = true)
    (hd : deltaFiles (formatMapPairs env d) T = nf)
    (hne : nf.isEmpty = false) :
    initMgr env d bn addcols store =
      (match (add_columns env (get_col_collector env.collectors T.cols)
          (newBase nf (nf.map (lookupTag (formatMapPairs env d)))) false).table with
      | some nT =>
        { infoName := infoNameOf d bn
          table := some (if (nf.map (lookupTag (formatMapPairs env d))).contains "data_dir" then
              { (vstack T nT) with haschild := true }
            else vstack T nT)
          table_update := true, new_files := nf
          opened := (add_columns env (get_col_collector env.collectors T.cols)
            (newBase nf (nf.map (lookupTag (formatMapPairs env d)))) false).opened
          closed := (add_columns env (get_col_collector env.collectors T.cols)
            (newBase nf (nf.map (lookupTag (formatMapPairs env d)))) false).closed
          warnings := (add_columns env (get_col_collector env.collectors T.cols)
            (newBase nf (nf.map (lookupTag (formatMapPairs env d)))) false).warnings }
      | none =>
        { infoName := infoNameOf d bn, table := none, table_update := false, new_files := nf
          opened := (add_columns env (get_col_collector env.collectors T.cols)
            (newBase nf (nf.map (lookupTag (formatMapPairs env d)))) false).opened
          closed := (add_columns env (get_col_collector env.collectors T.cols)
            (newBase nf (nf.map (lookupTag (formatMapPairs env d)))) false).closed
          warnings := (add_columns env (get_col_collector env.collectors T.cols)
            (newBase nf (nf.map (lookupTag (formatMapPairs env d)))) false).warnings }) := by
  unfold initMgr
  dsimp only
  rw [hst]
  dsimp only
  rw [if_pos hfncol, hd, hne]
  rfl

theorem initMgr_fresh_table (env : Env) (d : Dir) (bn : String) (addcols : List ColName)
    (store : List (FileName × Table)) (U : Table)
    (hst : lookupStore store (infoNameOf d bn) = none)
    (hU : (initMgr env d bn addcols store).table = some U) :
    filenameCells U = (formatMapPairs env d).map (fun p => some p.1) ∧
    TableWF U ∧ "filename" ∈ U.cols ∧ "fileformat" ∈ U.cols := by
  rw [initMgr_fresh_eq env d bn addcols store hst] at hU
  dsimp only at hU
  have hnd := keptColls_names_nodup (get_col_collector env.collectors (defaultCols addcols))
    (freshBase env d bn).cols (gcc_names_nodup env.collectors (defaultCols addcols))
  obtain ⟨hcols, _, hwf, hpres, _, _⟩ := add_columns_some_spec env
    (get_col_collector env.collectors (defaultCols addcols)) (freshBase env d bn) U hnd
    (freshBase_wf env d bn) hU
  have hfnb : "filename" ∈ (freshBase env d bn).cols := by simp [freshBase]
  have hffb : "fileformat" ∈ (freshBase env d bn).cols := by simp [freshBase]
  refine ⟨?_, hwf, ?_, ?_⟩
  · have hp := hpres "filename" hfnb
    unfold filenameCells
    rw [hp]
    exact freshBase_filename env d bn
  · rw [hcols]
    exact List.mem_append_left _ hfnb
  · rw [hcols]
    exact List.mem_append_left _ hffb

theorem haschild_tweak_cols (m : Table) (b : Bool) :
    (if b then { m with haschild := true } else m).cols = m.cols := by
  cases b <;> rfl

theorem haschild_tweak_rows (m : Table) (b : Bool) :
    (if b then { m with haschild := true } else m).rows = m.rows := by
  cases b <;> rfl

theorem colCells_haschild_tweak (m : Table) (b : Bool) (c : ColName) :
    colCells (if b then { m with haschild := true } else m) c = colCells m c := by
  cases b <;> rfl

/-! ### Concrete test fixtures -/

/-- A format whose matcher accepts every path and whose open always succeeds. -/
def fmtOk : DataFormat := ⟨fun _ => true, fun _ => true⟩

/-- A format whose matcher accepts every path but whose open fails on the
file named "a" (the file is missing or unreadable). -/
def fmtOpenFailA : DataFormat := ⟨fun _ => true, fun fn => !(fn == "a")⟩

/-- A collector that always produces the value "v". -/
def collVal : InfoCollector := ⟨fun _ _ => CollectOut.val "v"⟩

/-- A collector that always raises NotImplementedError. -/
def collNI : InfoCollector := ⟨fun _ _ => CollectOut.notImpl⟩

/-- A collector that always raises an unexpected (non-NotImplementedError)
exception. -/
def collErr : InfoCollector := ⟨fun _ _ => CollectOut.err⟩

def envC3 : Env := ⟨[("f1", fmtOpenFailA)], [("station", collVal)]⟩

def tgtC3 : Table :=
  ⟨["filename", "fileformat"], [[some "a", some "f1"], [some "b", some "f1"]], false, ""⟩

def envC4 : Env := ⟨[("f1", fmtOk)], [("c1", collErr)]⟩

def tgtC4 : Table := ⟨["filename", "fileformat"], [[some "a", some "f1"]], false, ""⟩

def envC5 : Env := ⟨[("data_dir", ⟨fun _ => false, fun _ => true⟩)], []⟩

def dirC5 : Dir := ⟨["s1", "s2"], fun _ => true, fun _ => []⟩

def envC6 : Env := ⟨[("f1", ⟨fun fn => fn == "a", fun _ => true⟩)], []⟩

def dirC6 : Dir := ⟨["x"], fun _ => false, fun _ => []⟩

def envC9 : Env := ⟨[("any", fmtOk)], []⟩

def dirC9 : Dir := ⟨["x.info"], fun _ => false, fun _ => []⟩

/-! ### Claim theorems -/

/-- Claim C3 (counterexample): during add_columns, a source file that is
missing or unreadable at extraction time does NOT get a null recorded with
the update proceeding; instead the open failure escapes the batch: the
call aborts (no table is produced), the remaining entry "b" is never
processed, and no handle is ever opened.  This refutes, at a concrete
input, the claim that such a failure surfaces a null for the affected
columns while the rest of the update proceeds. -/
theorem c3_missing_file_aborts_batch :
    (add_columns envC3 [("station", collVal)] tgtC3 false).table = none ∧
    (add_columns envC3 [("station", collVal)] tgtC3 false).opened = [] ∧
    (add_columns envC3 [("station", collVal)] tgtC3 false).closed = [] := by
  refine ⟨by decide, by decide, by decide⟩

/-- Claim C4 (code bug evidence): in add_columns there is no try/finally
around the per-file collector loop, so when a collector raises an
unexpected failure (not the NotImplementedError signal) the handle opened
for that row is never closed: the file "a" is opened but the closed trace
is empty.  This contradicts the claim that the handle is released on
every exit path. -/
theorem c4_close_skipped_on_collector_error :
    (add_columns envC4 [("c1", collErr)] tgtC4 false).opened = ["a"] ∧
    (add_columns envC4 [("c1", collErr)] tgtC4 false).closed = [] ∧
    (add_columns envC4 [("c1", collErr)] tgtC4 false).table = none := by
  refine ⟨by decide, by decide, by decide⟩

/-- Claim C5 (code bug evidence): the pruning loop of setup_info_table
removes entries from self.files['data_dir'] while iterating over the same
list, so with two consecutive catalog-less subdirectories s1 and s2 only
s1 is discarded: s2 survives the pruning, appears in the format map under
the data_dir tag, and becomes a row of the fresh table.  This contradicts
the claim that every catalog-less subdirectory is discarded, in
particular when two or more are present. -/
theorem c5_second_dir_not_pruned :
    prunedDirs dirC5 = ["s2"] ∧
    formatMapPairs envC5 dirC5 = [("s2", "data_dir")] ∧
    (initMgr envC5 dirC5 "d" [] []).table =
      some ⟨["filename", "fileformat"], [[some "s2", some "data_dir"]], true, "d_info_table"⟩ := by
  refine ⟨by decide, by decide, by decide⟩

/-- Claim C6 (counterexample): a regular file "x" matching no registered
format is NOT "still listed": it lands in no category of the scan, is
absent from the format map, and the fresh catalog table built for the
directory has zero rows. -/
theorem c6_unmatched_file_vanishes_cex :
    matchFmt envC6.formats "x" = none ∧
    formatMapPairs envC6 dirC6 = [] ∧
    (initMgr envC6 dirC6 "d" [] []).table =
      some ⟨["filename", "fileformat"], [], false, "d_info_table"⟩ := by
  refine ⟨by decide, by decide, by decide⟩

/-- Claim C9 (counterexample): a regular file carrying the catalog suffix
is NOT excluded from format classification: with a registered format
whose matcher accepts it, "x.info" appears in the format map (classified
under that format) even though it is also recorded as a catalog
candidate. -/
theorem c9_info_file_classified_cex :
    endsWithS "x.info" ".info" = true ∧
    infoCandidates dirC9 = ["x.info"] ∧
    formatMapPairs envC9 dirC9 = [("x.info", "any")] := by
  refine ⟨by decide, by decide, by decide⟩

/-- Claim C6 (amended): a regular file that matches none of the registered
format matchers is dropped from consideration entirely: it does not
appear in the format map, and it is not a row of the table freshly built
for the directory. -/
theorem c6_unmatched_file_invisible (env : Env) (d : Dir) (bn : String) (addcols : List ColName)
    (fn : FileName) (_hmem : fn ∈ d.listing) (hdir : d.isDir fn = false)
    (hmatch : matchFmt env.formats fn = none) :
    fn ∉ (formatMapPairs env d).map Prod.fst ∧
    ∀ U, (initMgr env d bn addcols []).table = some U → some fn ∉ filenameCells U := by
  have hkeys : fn ∉ (formatMapPairs env d).map Prod.fst := by
    rw [formatMap_keys_mem]
    rintro (h | ⟨_, _, h3⟩)
    · have hpd := (prunedDirs_isDir d fn h).2
      rw [hdir] at hpd
      cases hpd
    · exact h3 hmatch
  refine ⟨hkeys, ?_⟩
  intro U hU
  have hfresh := initMgr_fresh_table env d bn addcols [] U rfl hU
  rw [hfresh.1]
  intro hmem'
  obtain ⟨p, hp, hpe⟩ := List.mem_map.mp hmem'
  have : p.1 = fn := by simpa using hpe
  exact hkeys (this ▸ List.mem_map_of_mem Prod.fst hp)

/-- Witness for c6_unmatched_file_invisible at the concrete directory
containing the single unmatched file "x". -/
theorem c6_unmatched_file_invisible_witness :
    "x" ∉ (formatMapPairs envC6 dirC6).map Prod.fst ∧
    ∀ U, (initMgr envC6 dirC6 "d" [] []).table = some U → some "x" ∉ filenameCells U :=
  c6_unmatched_file_invisible envC6 dirC6 "d" [] "x" (by decide) (by decide) (by decide)

/-- Claim C9 (amended): a regular file whose name carries the catalog
suffix is recorded as a catalog candidate, but it is NOT excluded from
format classification: it is still passed to the registered matchers, and
it appears in the format map exactly when some registered format matches
it. -/
theorem c9_info_file_still_classified (env : Env) (d : Dir) (fn : FileName)
    (hmem : fn ∈ d.listing) (hinfo : endsWithS fn ".info" = true)
    (hdir : d.isDir fn = false) :
    fn ∈ infoCandidates d ∧
    (fn ∈ (formatMapPairs env d).map Prod.fst ↔ matchFmt env.formats fn ≠ none) := by
  refine ⟨?_, ?_⟩
  · unfold infoCandidates
    rw [List.mem_filter]
    exact ⟨hmem, hinfo⟩
  · rw [formatMap_keys_mem]
    constructor
    · rintro (h | h)
      · have hpd := (prunedDirs_isDir d fn h).2
        rw [hdir] at hpd
        cases hpd
      · exact h.2.2
    · intro h
      exact Or.inr ⟨hmem, hdir, h⟩

/-- Witness for c9_info_file_still_classified at the concrete directory
containing the single file "x.info" and a format matching everything. -/
theorem c9_info_file_still_classified_witness :
    "x.info" ∈ infoCandidates dirC9 ∧
    ("x.info" ∈ (formatMapPairs envC9 dirC9).map Prod.fst ↔
      matchFmt envC9.formats "x.info" ≠ none) :=
  c9_info_file_still_classified envC9 dirC9 "x.info" (by decide) (by decide) (by decide)

/-- Claim C7: for every collector kept by add_columns, the resulting cell
for a file is null exactly when the collector reported "not implemented
for this format" (NotImplementedError), the produced value otherwise; no
error escapes (a table is returned) and every file and every collector is
processed. -/
theorem c7_not_implemented_null (env : Env) (colls : List (ColName × InfoCollector))
    (target : Table)
    (hnd : ((keptColls colls target.cols).map Prod.fst).Nodup)
    (hwf : TableWF target)
    (hfn : "filename" ∈ target.cols) (hff : "fileformat" ∈ target.cols)
    (hok : ∀ pr ∈ fileFmtPairs target,
      ∃ df, lookupFmt env.formats pr.2 = some df ∧ df.openOk pr.1 = true)
    (hne : ∀ pr ∈ fileFmtPairs target, ∀ p ∈ keptColls colls target.cols,
      p.2.collect pr.2 pr.1 ≠ CollectOut.err) :
    ∃ U, (add_columns env colls target false).table = some U ∧
      ∀ p ∈ keptColls colls target.cols,
        colCells U p.1 = (fileFmtPairs target).map (fun pr =>
          match p.2.collect pr.2 pr.1 with
          | CollectOut.val v => some v
          | CollectOut.notImpl => none
          | CollectOut.err => none) := by
  obtain ⟨U, hU, hvals, _, _, _⟩ :=
    add_columns_success_spec env colls target hnd hwf hfn hff hok hne
  refine ⟨U, hU, ?_⟩
  intro p hp
  rw [hvals p hp]
  refine List.map_congr_left ?_
  intro pr _
  cases hcc : p.2.collect pr.2 pr.1 <;> simp [cellOf, hcc]

def envC7 : Env := ⟨[("f1", fmtOk)], []⟩

def collsC7 : List (ColName × InfoCollector) := [("st", collNI), ("ch", collVal)]

def tgtC7 : Table :=
  ⟨["filename", "fileformat"], [[some "a", some "f1"], [some "b", some "f1"]], false, ""⟩

/-- Witness for c7_not_implemented_null: a not-implemented collector and a
value-producing collector over two files. -/
theorem c7_not_implemented_null_witness :
    ∃ U, (add_columns envC7 collsC7 tgtC7 false).table = some U ∧
      ∀ p ∈ keptColls collsC7 tgtC7.cols,
        colCells U p.1 = (fileFmtPairs tgtC7).map (fun pr =>
          match p.2.collect pr.2 pr.1 with
          | CollectOut.val v => some v
          | CollectOut.notImpl => none
          | CollectOut.err => none) := by
  refine c7_not_implemented_null envC7 collsC7 tgtC7 ?_ (by decide) (by decide) (by decide) ?_ ?_
  · have hk : keptColls collsC7 tgtC7.cols = collsC7 := rfl
    rw [hk]
    show (["st", "ch"] : List ColName).Nodup
    decide
  · intro pr hpr
    have he : fileFmtPairs tgtC7 = [("a", "f1"), ("b", "f1")] := by decide
    rw [he] at hpr
    rcases List.mem_cons.mp hpr with rfl | hpr
    · exact ⟨fmtOk, rfl, rfl⟩
    · rcases List.mem_cons.mp hpr with rfl | hpr
      · exact ⟨fmtOk, rfl, rfl⟩
      · exact absurd hpr (List.not_mem_nil pr)
  · intro pr _ p hp
    have hk : keptColls collsC7 tgtC7.cols = collsC7 := rfl
    rw [hk] at hp
    rcases List.mem_cons.mp hp with rfl | hp
    · simp [collNI]
    · rcases List.mem_cons.mp hp with rfl | hp
      · simp [collVal]
      · exact absurd hp (List.not_mem_nil p)

/-- Claim C10: when a requested column already exists in the target table
and overwrite is false, add_columns warns about that column, leaves every
existing column (in particular the colliding one) unchanged, raises no
error, and still computes the remaining non-colliding requested columns. -/
theorem c10_column_collision (env : Env) (colls : List (ColName × InfoCollector))
    (target : Table)
    (hnd : ((keptColls colls target.cols).map Prod.fst).Nodup)
    (hwf : TableWF target)
    (hfn : "filename" ∈ target.cols) (hff : "fileformat" ∈ target.cols)
    (hok : ∀ pr ∈ fileFmtPairs target,
      ∃ df, lookupFmt env.formats pr.2 = some df ∧ df.openOk pr.1 = true)
    (hne : ∀ pr ∈ fileFmtPairs target, ∀ p ∈ keptColls colls target.cols,
      p.2.collect pr.2 pr.1 ≠ CollectOut.err)
    (cn : ColName) (c : InfoCollector) (hcoll : (cn, c) ∈ colls) (hexist : cn ∈ target.cols) :
    cn ∈ (add_columns env colls target false).warnings ∧
    ∃ U, (add_columns env colls target false).table = some U ∧
      colCells U cn = colCells target cn ∧
      ∀ p ∈ keptColls colls target.cols,
        colCells U p.1 = (fileFmtPairs target).map (fun pr => cellOf p.2 pr.2 pr.1) := by
  obtain ⟨U, hU, hvals, _, _, hwarn⟩ :=
    add_columns_success_spec env colls target hnd hwf hfn hff hok hne
  obtain ⟨_, _, _, hpres, _, _⟩ := add_columns_some_spec env colls target U hnd hwf hU
  refine ⟨?_, U, hU, hpres cn hexist, hvals⟩
  rw [hwarn]
  refine List.mem_map_of_mem Prod.fst (List.mem_filter.mpr ⟨hcoll, ?_⟩)
  simpa using hexist

def collsC10 : List (ColName × InfoCollector) := [("filename", collVal), ("new", collVal)]

/-- Witness for c10_column_collision: the requested column "filename"
already exists in the target; "new" does not. -/
theorem c10_column_collision_witness :
    "filename" ∈ (add_columns envC7 collsC10 tgtC7 false).warnings ∧
    ∃ U, (add_columns envC7 collsC10 tgtC7 false).table = some U ∧
      colCells U "filename" = colCells tgtC7 "filename" ∧
      ∀ p ∈ keptColls collsC10 tgtC7.cols,
        colCells U p.1 = (fileFmtPairs tgtC7).map (fun pr => cellOf p.2 pr.2 pr.1) := by
  refine c10_column_collision envC7 collsC10 tgtC7 ?_ (by decide) (by decide) (by decide)
    ?_ ?_ "filename" collVal ?_ (by decide)
  · have hk : keptColls collsC10 tgtC7.cols = [("new", collVal)] := rfl
    rw [hk]
    show (["new"] : List ColName).Nodup
    decide
  · intro pr hpr
    have he : fileFmtPairs tgtC7 = [("a", "f1"), ("b", "f1")] := by decide
    rw [he] at hpr
    rcases List.mem_cons.mp hpr with rfl | hpr
    · exact ⟨fmtOk, rfl, rfl⟩
    · rcases List.mem_cons.mp hpr with rfl | hpr
      · exact ⟨fmtOk, rfl, rfl⟩
      · exact absurd hpr (List.not_mem_nil pr)
  · intro pr _ p hp
    have hk : keptColls collsC10 tgtC7.cols = [("new", collVal)] := rfl
    rw [hk] at hp
    rcases List.mem_cons.mp hp with rfl | hp
    · simp [collVal]
    · exact absurd hp (List.not_mem_nil p)
  · exact List.mem_cons_self _ _

theorem initMgr_existing_nofilename (env : Env) (d : Dir) (bn : String) (addcols : List ColName)
    (store : List (FileName × Table)) (T : Table)
    (hst : lookupStore store (infoNameOf d bn) = some T)
    (h : T.cols.contains "filename" = false) :
    initMgr env d bn addcols store =
      { infoName := infoNameOf d bn, table := none, table_update := false, new_files := []
        opened := [], closed := [], warnings := [] } := by
  unfold initMgr
  dsimp only
  rw [hst]
  dsimp only
  rw [if_neg (by rw [h]; simp)]

/-- Claim C8: every table the manager produces has pairwise distinct
filename values: a fresh build has one row per format-map key, and a
merge adds only files absent from the loaded table's filename column
(provided the loaded table itself had distinct filenames, as every
manager-produced table does). -/
theorem c8_filename_unique (env : Env) (d : Dir) (bn : String) (addcols : List ColName)
    (store : List (FileName × Table))
    (hl : d.listing.Nodup) (hf : (env.formats.map Prod.fst).Nodup)
    (hT : ∀ T, lookupStore store (infoNameOf d bn) = some T →
      (filenameCells T).Nodup ∧ TableWF T) :
    ∀ U, (initMgr env d bn addcols store).table = some U → (filenameCells U).Nodup := by
  intro U hU
  cases hst : lookupStore store (infoNameOf d bn) with
  | none =>
    have hfresh := initMgr_fresh_table env d bn addcols store U hst hU
    rw [hfresh.1]
    have hkeys := formatMap_keys_nodup env d hl hf
    have hmm : (formatMapPairs env d).map (fun p => (some p.1 : Cell)) =
        ((formatMapPairs env d).map Prod.fst).map (fun f => (some f : Cell)) := by
      rw [List.map_map]
      rfl
    rw [hmm]
    exact hkeys.map (Option.some_injective _)
  | some T =>
    obtain ⟨hTnd, hTwf⟩ := hT T hst
    cases hfncol : T.cols.contains "filename" with
    | false =>
      rw [initMgr_existing_nofilename env d bn addcols store T hst hfncol] at hU
      simp at hU
    | true =>
      cases hdelta : deltaFiles (formatMapPairs env d) T with
      | nil =>
        rw [initMgr_existing_nodelta env d bn addcols store T hst hfncol hdelta] at hU
        simp only [Option.some.injEq] at hU
        rw [← hU]
        exact hTnd
      | cons f0 nfrest =>
        rw [initMgr_existing_delta env d bn addcols store T (f0 :: nfrest) hst hfncol hdelta
          rfl] at hU
        cases ho : (add_columns env (get_col_collector env.collectors T.cols)
            (newBase (f0 :: nfrest)
              ((f0 :: nfrest).map (lookupTag (formatMapPairs env d)))) false).table with
        | none =>
          rw [ho] at hU
          simp at hU
        | some nT =>
          rw [ho] at hU
          simp only [Option.some.injEq] at hU
          rw [← hU]
          unfold filenameCells
          rw [colCells_haschild_tweak]
          have hnd := keptColls_names_nodup (get_col_collector env.collectors T.cols)
            (newBase (f0 :: nfrest)
              ((f0 :: nfrest).map (lookupTag (formatMapPairs env d)))).cols
            (gcc_names_nodup env.collectors T.cols)
          obtain ⟨ncols, _, _, npres, _, _⟩ := add_columns_some_spec env
            (get_col_collector env.collectors T.cols)
            (newBase (f0 :: nfrest) ((f0 :: nfrest).map (lookupTag (formatMapPairs env d)))) nT
            hnd (newBase_wf _ _) ho
          have hfnT : "filename" ∈ T.cols := by simpa using hfncol
          have hfnN : "filename" ∈ nT.cols := by
            rw [ncols]
            exact List.mem_append_left _ (by simp [newBase])
          rw [colCells_vstack T nT "filename" hTwf hfnT hfnN]
          have hnfn : colCells nT "filename" = (f0 :: nfrest).map (fun f => (some f : Cell)) := by
            rw [npres "filename" (by simp [newBase])]
            exact newBase_filename _ _ (by simp)
          rw [hnfn]
          rw [List.nodup_append]
          have hnfnodup : (f0 :: nfrest).Nodup := by
            rw [← hdelta]
            unfold deltaFiles
            exact (formatMap_keys_nodup env d hl hf).filter _
          refine ⟨hTnd, hnfnodup.map (Option.some_injective _), ?_⟩
          intro x hx1 hx2
          obtain ⟨f, hfmem, rfl⟩ := List.mem_map.mp hx2
          have hfd : f ∈ deltaFiles (formatMapPairs env d) T := hdelta ▸ hfmem
          unfold deltaFiles at hfd
          have hfil := (List.mem_filter.mp hfd).2
          have hnotin : (some f : Cell) ∉ filenameCells T := by simpa using hfil
          exact hnotin hx1

def envC8 : Env := ⟨[("f1", fmtOk)], []⟩

def dirC8 : Dir := ⟨["a", "b"], fun _ => false, fun _ => []⟩

/-- Witness for c8_filename_unique at a concrete two-file directory. -/
theorem c8_filename_unique_witness :
    (filenameCells ⟨["filename", "fileformat"],
      [[some "a", some "f1"], [some "b", some "f1"]], false, "d_info_table"⟩).Nodup :=
  c8_filename_unique envC8 dirC8 "d" [] [] (by decide) (by decide)
    (fun T hT => by simp [lookupStore, infoNameOf, infoCandidates, dirC8] at hT)
    ⟨["filename", "fileformat"], [[some "a", some "f1"], [some "b", some "f1"]], false,
      "d_info_table"⟩ (by decide)

/-- Claim C1: with a persisted table T and exactly one new file f in the
scan's delta, re-initialization produces T with its column list unchanged
and every existing row byte-for-byte unchanged, plus exactly one appended
row whose filename is f; during the update the only file handle opened
(and closed) is f's, so already-cataloged files are never re-opened; the
dirty flag is set. -/
theorem c1_incremental (env : Env) (d : Dir) (bn : String) (addcols : List ColName)
    (store : List (FileName × Table)) (T : Table) (f : FileName)
    (hst : lookupStore store (infoNameOf d bn) = some T)
    (hwfT : TableWF T)
    (hfnT : "filename" ∈ T.cols) (hffT : "fileformat" ∈ T.cols)
    (hd : deltaFiles (formatMapPairs env d) T = [f])
    (hok : ∃ df, lookupFmt env.formats (lookupTag (formatMapPairs env d) f) = some df ∧
      df.openOk f = true)
    (hne : ∀ p ∈ env.collectors, ∀ fmt fn, (p.2).collect fmt fn ≠ CollectOut.err) :
    ∃ U r, (initMgr env d bn addcols store).table = some U ∧
      U.cols = T.cols ∧
      U.rows = T.rows ++ [r] ∧
      filenameCells U = filenameCells T ++ [some f] ∧
      (initMgr env d bn addcols store).opened = [f] ∧
      (initMgr env d bn addcols store).closed = [f] ∧
      (initMgr env d bn addcols store).table_update = true := by
  have hfncol : T.cols.contains "filename" = true := by simpa using hfnT
  rw [initMgr_existing_delta env d bn addcols store T [f] hst hfncol hd rfl]
  have hnbcols : (newBase [f] ([f].map (lookupTag (formatMapPairs env d)))).cols =
      ["filename", "fileformat"] := rfl
  have hpairs : fileFmtPairs (newBase [f] ([f].map (lookupTag (formatMapPairs env d)))) =
      [(f, lookupTag (formatMapPairs env d) f)] := by
    rw [newBase_pairs]
    rfl
  have hnd := keptColls_names_nodup (get_col_collector env.collectors T.cols)
    (newBase [f] ([f].map (lookupTag (formatMapPairs env d)))).cols
    (gcc_names_nodup env.collectors T.cols)
  obtain ⟨df, hdf, hopen⟩ := hok
  have hokk : ∀ pr ∈ fileFmtPairs (newBase [f] ([f].map (lookupTag (formatMapPairs env d)))),
      ∃ df', lookupFmt env.formats pr.2 = some df' ∧ df'.openOk pr.1 = true := by
    intro pr hpr
    rw [hpairs] at hpr
    rcases List.mem_cons.mp hpr with rfl | h
    · exact ⟨df, hdf, hopen⟩
    · exact absurd h (List.not_mem_nil pr)
  have hnee : ∀ pr ∈ fileFmtPairs (newBase [f] ([f].map (lookupTag (formatMapPairs env d)))),
      ∀ p ∈ keptColls (get_col_collector env.collectors T.cols)
        (newBase [f] ([f].map (lookupTag (formatMapPairs env d)))).cols,
      p.2.collect pr.2 pr.1 ≠ CollectOut.err := by
    intro pr _ p hp
    exact hne p ((gcc_mem env.collectors T.cols p (keptColls_sub _ _ p hp)).2) pr.2 pr.1
  obtain ⟨nT, hnT, _, hopened, hclosed, _⟩ :=
    add_columns_success_spec env (get_col_collector env.collectors T.cols)
      (newBase [f] ([f].map (lookupTag (formatMapPairs env d)))) hnd (newBase_wf _ _)
      (by rw [hnbcols]; simp) (by rw [hnbcols]; simp) hokk hnee
  obtain ⟨ncols, nlen, _, npres, _, _⟩ :=
    add_columns_some_spec env (get_col_collector env.collectors T.cols)
      (newBase [f] ([f].map (lookupTag (formatMapPairs env d)))) nT hnd (newBase_wf _ _) hnT
  rw [hnT]
  dsimp only
  have hsub : ∀ c ∈ nT.cols, c ∈ T.cols := by
    intro c hc
    rw [ncols] at hc
    rcases List.mem_append.mp hc with hc | hc
    · rw [hnbcols] at hc
      rcases List.mem_cons.mp hc with rfl | hc
      · exact hfnT
      · rcases List.mem_cons.mp hc with rfl | hc
        · exact hffT
        · exact absurd hc (List.not_mem_nil c)
    · obtain ⟨p, hp, rfl⟩ := List.mem_map.mp hc
      exact (gcc_mem env.collectors T.cols p (keptColls_sub _ _ p hp)).1
  obtain ⟨hvcols, hvrows⟩ := vstack_of_sub T nT hsub
  have hnlen1 : nT.rows.length = 1 := by
    rw [nlen]
    rfl
  obtain ⟨r0, hr0⟩ := List.length_eq_one.mp hnlen1
  have hfnN : "filename" ∈ nT.cols := by
    rw [ncols]
    refine List.mem_append_left _ ?_
    rw [hnbcols]
    simp
  have hnfn : colCells nT "filename" = [some f] := by
    rw [npres "filename" (by rw [hnbcols]; simp)]
    have hnbfn := newBase_filename [f] ([f].map (lookupTag (formatMapPairs env d))) (by simp)
    unfold filenameCells at hnbfn
    rw [hnbfn]
    rfl
  refine ⟨_, T.cols.map (fun c =>
      match idxOf? c nT.cols with
      | some i => r0.getD i none
      | none => (none : Cell)), rfl, ?_, ?_, ?_, ?_, ?_, rfl⟩
  · rw [haschild_tweak_cols, hvcols]
  · rw [haschild_tweak_rows, hvrows, hr0]
    rfl
  · unfold filenameCells
    rw [colCells_haschild_tweak, colCells_vstack T nT "filename" hwfT hfnT hfnN, hnfn]
  · rw [hopened, hpairs]
    rfl
  · rw [hclosed, hpairs]
    rfl

def tblC1 : Table := ⟨["filename", "fileformat"], [[some "a", some "f1"]], false, "t"⟩

/-- Witness for c1_incremental: table with the single cataloged file "a",
directory now also holding the new file "b". -/
theorem c1_incremental_witness :
    ∃ U r, (initMgr envC8 dirC8 "d" [] [("d.info", tblC1)]).table = some U ∧
      U.cols = tblC1.cols ∧
      U.rows = tblC1.rows ++ [r] ∧
      filenameCells U = filenameCells tblC1 ++ [some "b"] ∧
      (initMgr envC8 dirC8 "d" [] [("d.info", tblC1)]).opened = ["b"] ∧
      (initMgr envC8 dirC8 "d" [] [("d.info", tblC1)]).closed = ["b"] ∧
      (initMgr envC8 dirC8 "d" [] [("d.info", tblC1)]).table_update = true :=
  c1_incremental envC8 dirC8 "d" [] [("d.info", tblC1)] tblC1 "b" (by decide) (by decide)
    (by decide) (by decide) (by decide) ⟨fmtOk, rfl, rfl⟩
    (fun p hp => absurd hp (List.not_mem_nil p))

/-! ### Claim C2: idempotence of re-initialization -/

theorem endsWithS_append_self (bn : String) : endsWithS (bn ++ ".info") ".info" = true := by
  unfold endsWithS
  rw [String.data_append]
  exact (List.isSuffixOf_iff_suffix).mpr (List.suffix_append _ _)

theorem fmtSection_congr (allF : List (FormatTag × DataFormat)) (d1 d2 : Dir)
    (h : ∀ k, fmtFiles allF d1 k = fmtFiles allF d2 k) :
    ∀ fmts, fmtSection allF d1 fmts = fmtSection allF d2 fmts
  | [] => rfl
  | (k, df) :: rest => by
    simp only [fmtSection, h k, fmtSection_congr allF d1 d2 h rest]

/-- Claim C2: after a fresh initialization of a directory with no info
file, persisting, and re-initializing the directory (now containing only
the freshly written info file in addition), the second run returns the
identical table, leaves the dirty flag false, and the subsequent persist
writes nothing (the store is unchanged). -/
theorem c2_idempotent (env : Env) (d : Dir) (bn : String) (addcols : List ColName) (T1 : Table)
    (hinfo : ∀ fn ∈ d.listing, endsWithS fn ".info" = false)
    (hnotdir : d.isDir (bn ++ ".info") = false)
    (hnomatch : matchFmt env.formats (bn ++ ".info") = none)
    (h1 : (initMgr env d bn addcols []).table = some T1) :
    (initMgr env (Dir.mk (d.listing ++ [bn ++ ".info"]) d.isDir d.sub) bn addcols
        (write_info_table (initMgr env d bn addcols []) [])).table = some T1 ∧
    (initMgr env (Dir.mk (d.listing ++ [bn ++ ".info"]) d.isDir d.sub) bn addcols
        (write_info_table (initMgr env d bn addcols []) [])).table_update = false ∧
    write_info_table
      (initMgr env (Dir.mk (d.listing ++ [bn ++ ".info"]) d.isDir d.sub) bn addcols
        (write_info_table (initMgr env d bn addcols []) []))
      (write_info_table (initMgr env d bn addcols []) []) =
      write_info_table (initMgr env d bn addcols []) [] := by
  have hcand1 : infoCandidates d = [] := by
    unfold infoCandidates
    rw [List.filter_eq_nil_iff]
    intro fn hfn
    simp [hinfo fn hfn]
  have hname1 : infoNameOf d bn = bn ++ ".info" := by
    unfold infoNameOf
    rw [hcand1]
  have hst1 : lookupStore [] (infoNameOf d bn) = none := rfl
  -- facts about the first run
  have hfresh := initMgr_fresh_table env d bn addcols [] T1 hst1 h1
  have hupd1 : (initMgr env d bn addcols []).table_update = true := by
    rw [initMgr_fresh_eq env d bn addcols [] hst1] at h1 ⊢
    dsimp only at h1 ⊢
    rw [h1]
    rfl
  have hiname1 : (initMgr env d bn addcols []).infoName = infoNameOf d bn := by
    rw [initMgr_fresh_eq env d bn addcols [] hst1]
  -- the store after the first persist
  have hstore1 : write_info_table (initMgr env d bn addcols []) [] =
      [(bn ++ ".info", T1)] := by
    unfold write_info_table
    rw [hupd1, h1, hiname1, hname1]
    rfl
  set d2 : Dir := Dir.mk (d.listing ++ [bn ++ ".info"]) d.isDir d.sub with hd2
  -- the second run resolves the same info-file name and finds T1
  have hcand2 : infoCandidates d2 = [bn ++ ".info"] := by
    unfold infoCandidates
    rw [hd2]
    show (d.listing ++ [bn ++ ".info"]).filter (fun fn => endsWithS fn ".info") = _
    rw [List.filter_append, (by
      unfold infoCandidates at hcand1
      exact hcand1 : d.listing.filter (fun fn => endsWithS fn ".info") = [])]
    simp [endsWithS_append_self bn]
  have hname2 : infoNameOf d2 bn = bn ++ ".info" := by
    unfold infoNameOf
    rw [hcand2]
  have hst2 : lookupStore (write_info_table (initMgr env d bn addcols []) [])
      (infoNameOf d2 bn) = some T1 := by
    rw [hstore1, hname2]
    simp [lookupStore]
  -- the scan of d2 produces the same format map as the scan of d
  have hdd : dataDirs0 d2 = dataDirs0 d := by
    unfold dataDirs0
    rw [hd2]
    show (d.listing ++ [bn ++ ".info"]).filter d.isDir = d.listing.filter d.isDir
    rw [List.filter_append]
    simp [hnotdir]
  have hpruned : prunedDirs d2 = prunedDirs d := by
    unfold prunedDirs
    rw [hdd]
    rfl
  have hff : ∀ k, fmtFiles env.formats d2 k = fmtFiles env.formats d k := by
    intro k
    unfold fmtFiles
    rw [hd2]
    show (d.listing ++ [bn ++ ".info"]).filter _ = d.listing.filter _
    rw [List.filter_append]
    simp [hnotdir, hnomatch]
  have hfmap : formatMapPairs env d2 = formatMapPairs env d := by
    unfold formatMapPairs
    rw [hpruned, fmtSection_congr env.formats d2 d hff env.formats]
  -- the delta of the second run is empty
  have hdelta2 : deltaFiles (formatMapPairs env d2) T1 = [] := by
    rw [hfmap]
    unfold deltaFiles
    rw [List.filter_eq_nil_iff]
    intro fn hfn
    obtain ⟨p, hp, hpe⟩ := List.mem_map.mp hfn
    have hcell : (some fn : Cell) ∈ filenameCells T1 := by
      rw [hfresh.1]
      exact List.mem_map.mpr ⟨p, hp, by rw [hpe]⟩
    simp [hcell]
  have hfncol2 : T1.cols.contains "filename" = true := by
    simpa using hfresh.2.2.1
  have hrun2 := initMgr_existing_nodelta env d2 bn addcols
    (write_info_table (initMgr env d bn addcols []) []) T1 hst2 hfncol2 hdelta2
  rw [hrun2]
  refine ⟨rfl, rfl, ?_⟩
  rfl

def envC2 : Env := ⟨[("f1", ⟨fun fn => fn == "a", fun _ => true⟩)], []⟩

def dirC2 : Dir := ⟨["a"], fun _ => false, fun _ => []⟩

def tblC2 : Table := ⟨["filename", "fileformat"], [[some "a", some "f1"]], false, "d_info_table"⟩

/-- Witness for c2_idempotent: one-file directory, fresh build then
re-initialization. -/
theorem c2_idempotent_witness :
    (initMgr envC2 (Dir.mk (dirC2.listing ++ ["d" ++ ".info"]) dirC2.isDir dirC2.sub) "d" []
        (write_info_table (initMgr envC2 dirC2 "d" [] []) [])).table = some tblC2 ∧
    (initMgr envC2 (Dir.mk (dirC2.listing ++ ["d" ++ ".info"]) dirC2.isDir dirC2.sub) "d" []
        (write_info_table (initMgr envC2 dirC2 "d" [] []) [])).table_update = false ∧
    write_info_table
      (initMgr envC2 (Dir.mk (dirC2.listing ++ ["d" ++ ".info"]) dirC2.isDir dirC2.sub) "d" []
        (write_info_table (initMgr envC2 dirC2 "d" [] []) []))
      (write_info_table (initMgr envC2 dirC2 "d" [] []) []) =
      write_info_table (initMgr envC2 dirC2 "d" [] []) [] :=
  c2_idempotent envC2 dirC2 "d" [] tblC2 (by decide) (by decide) (by decide) (by decide)

/-! ### Claim C3 (amended): an unreadable source file aborts add_columns -/

theorem rowLoop_abort (formats : List (FormatTag × DataFormat))
    (kept : List (ColName × InfoCollector)) : ∀ (pairs : List (FileName × FormatTag)),
    (∃ pr ∈ pairs, lookupFmt formats pr.2 = none ∨
      ∃ df, lookupFmt formats pr.2 = some df ∧ df.openOk pr.1 = false) →
    (rowLoop formats kept pairs).1 = none
  | [], h => by
    obtain ⟨pr, hpr, _⟩ := h
    exact absurd hpr (List.not_mem_nil pr)
  | (fn, fmt) :: rest, h => by
    obtain ⟨pr, hpr, hcase⟩ := h
    rcases List.mem_cons.mp hpr with rfl | hpr
    · rcases hcase with hcase | ⟨df, hdf, hopen⟩
      · simp only [rowLoop, hcase]
      · simp only [rowLoop, hdf, hopen, Bool.false_eq_true, if_false]
    · cases hlf : lookupFmt formats fmt with
      | none => simp only [rowLoop, hlf]
      | some df =>
        by_cases hopen : df.openOk fn
        · cases hcc : collectCells kept fmt fn with
          | none => simp only [rowLoop, hlf, hopen, if_true, hcc]
          | some cells =>
            have ih := rowLoop_abort formats kept rest ⟨pr, hpr, hcase⟩
            simp only [rowLoop, hlf, hopen, if_true, hcc]
            rw [ih]
            rfl
        · simp only [rowLoop, hlf, if_neg hopen]

/-- Claim C3 (amended): a source file that is missing or unreadable at
extraction time is NOT recorded as a null: the open failure (or a missing
format entry) escapes add_columns, which aborts without producing any
table — only the NotImplementedError signal is swallowed as a null. -/
theorem c3_open_failure_aborts (env : Env) (colls : List (ColName × InfoCollector))
    (target : Table)
    (hbad : ∃ pr ∈ fileFmtPairs target,
      lookupFmt env.formats pr.2 = none ∨
      ∃ df, lookupFmt env.formats pr.2 = some df ∧ df.openOk pr.1 = false) :
    (add_columns env colls target false).table = none := by
  cases hi : idxOf? "filename" target.cols with
  | none => exact add_columns_none_of_no_col env colls target (Or.inl hi)
  | some i =>
    cases hj : idxOf? "fileformat" target.cols with
    | none => exact add_columns_none_of_no_col env colls target (Or.inr hj)
    | some j =>
      rw [add_columns_eq env colls target i j hi hj]
      have habort := rowLoop_abort env.formats (keptColls colls target.cols)
        (fileFmtPairs target) hbad
      rcases hrl : rowLoop env.formats (keptColls colls target.cols) (fileFmtPairs target)
        with ⟨orc, oo, ocl⟩
      rw [hrl] at habort
      simp only at habort
      subst habort
      rfl

/-- Witness for c3_open_failure_aborts: the file "a" cannot be opened. -/
theorem c3_open_failure_aborts_witness :
    (add_columns envC3 [("station", collVal)] tgtC3 false).table = none := by
  refine c3_open_failure_aborts envC3 [("station", collVal)] tgtC3
    ⟨("a", "f1"), ?_, Or.inr ⟨fmtOpenFailA, rfl, rfl⟩⟩
  have he : fileFmtPairs tgtC3 = [("a", "f1"), ("b", "f1")] := by decide
  rw [he]
  simp

end Lofasm
